import Mathlib

/-!
# RetailMart dashboard (`04_dashboard/js/dashboard.js`)

A shallow embedding of the dashboard script: the two formatters
(`formatCurrency`, `formatNumber`), the string expressions that build the
chart labels and the tier cell, and the six loaders with their `try`/`catch`.

JavaScript strings are sequences of UTF-16 code units; numbers are IEEE-754
doubles, kept here as a sign, a natural significand and a binary exponent so
that every operation is integer arithmetic.
-/

namespace RetailMart

/-! ## Strings -/

/-- One UTF-16 code unit. -/
abbrev CodeUnit := Fin 65536

/-- A JavaScript string: its sequence of UTF-16 code units. -/
abbrev JSString := List CodeUnit

/-- UTF-16 encoding of one Unicode scalar value. -/
def utf16Char (c : Char) : List CodeUnit :=
  if c.toNat < 65536 then [Fin.ofNat c.toNat]
  else [Fin.ofNat (55296 + (c.toNat - 65536) / 1024),
        Fin.ofNat (56320 + (c.toNat - 65536) % 1024)]

/-- The JavaScript string denoted by a string literal. -/
def utf16 (s : String) : JSString := s.toList.flatMap utf16Char

/-- `String.prototype.substring(start, stop)` for non-negative integer arguments:
both ends are clamped to the length and swapped when out of order. -/
def substring (s : JSString) (start stop : Nat) : JSString :=
  let a := min start s.length
  let b := min stop s.length
  (s.drop (min a b)).take (max a b - min a b)

/-- `String.prototype.replace(pat, rep)` with a string pattern and a replacement
without `$`: only the first occurrence of `pat` is replaced. -/
def replaceFirst (pat rep : JSString) : JSString → JSString
  | [] => if pat = [] then rep else []
  | c :: cs =>
    if (c :: cs).take pat.length = pat then rep ++ (c :: cs).drop pat.length
    else c :: replaceFirst pat rep cs

/-- Whether a code unit is in the ASCII range. -/
def isAscii (c : CodeUnit) : Bool := decide (c.val < 128)

/-- Lower-casing of one ASCII code unit: `A`..`Z` go to `a`..`z`. -/
def asciiLower (c : CodeUnit) : CodeUnit :=
  if 65 ≤ c.val ∧ c.val ≤ 90 then Fin.ofNat (c.val + 32) else c

/-- `String.prototype.toLowerCase()`. On an all-ASCII string the Unicode default
case conversion is the ASCII one. For any other string it follows the Unicode
character tables, which the script does not carry: they are the parameter
`unicodeLower`. -/
def toLowerCase (unicodeLower : JSString → JSString) (s : JSString) : JSString :=
  if s.all isAscii then s.map asciiLower else unicodeLower s

/-- The chart label of `loadTopProducts`:
`d.product_name.substring(0, 20) + '...'`. -/
def productLabel (name : JSString) : JSString :=
  substring name 0 20 ++ utf16 "..."

/-- The class attribute of the tier cell of `loadStorePerformance`:
`status-${store.performance_tier.toLowerCase().replace(' ', '-')}`. -/
def tierClass (unicodeLower : JSString → JSString) (tier : JSString) : JSString :=
  utf16 "status-" ++ replaceFirst (utf16 " ") (utf16 "-") (toLowerCase unicodeLower tier)

/-- The interpolated text of the tier cell of `loadStorePerformance`:
`${store.performance_tier === 'Star' ? '⭐ ' : ''}${store.performance_tier}`. -/
def tierText (tier : JSString) : JSString :=
  (if tier = utf16 "Star" then utf16 "⭐ " else utf16 "") ++ tier

/-- The tier cell as written in the row template, with its line breaks and
indentation. -/
def tierCell (unicodeLower : JSString → JSString) (tier : JSString) : JSString :=
  utf16 "<td class=\"status-"
    ++ replaceFirst (utf16 " ") (utf16 "-") (toLowerCase unicodeLower tier)
    ++ utf16 "\">\n                    "
    ++ (if tier = utf16 "Star" then utf16 "⭐ " else utf16 "") ++ tier
    ++ utf16 "\n                </td>"

/-- The tier name as the claim words it: lower-cased, every space replaced by a
hyphen. -/
def hyphenateAll (unicodeLower : JSString → JSString) (tier : JSString) : JSString :=
  (toLowerCase unicodeLower tier).map (fun c => if c = 32 then 45 else c)

/-! ## Numbers -/

/-- A JavaScript Number. `fin neg m e` is the finite value `(-1)^neg * m * 2^e`
(a zero with its sign when `m = 0`); the value is a double when it can be written
with `m < 2^53` and `-1074 ≤ e ≤ 971`. -/
inductive JSNumber
  | nan
  | inf (neg : Bool)
  | fin (neg : Bool) (m : Nat) (e : Int)
  deriving DecidableEq, Repr

/-- The Number of a non-negative integer literal that a double holds exactly. -/
def JSNumber.ofNat (n : Nat) : JSNumber := .fin false n 0

/-- A representation that is a double as it stands. -/
def JSNumber.IsDouble : JSNumber → Prop
  | .fin _ m e => m < 2 ^ 53 ∧ -1074 ≤ e ∧ e ≤ 971
  | _ => True

/-- Numerator of the magnitude `m * 2^e` written as a fraction of naturals. -/
def magNum (m : Nat) (e : Int) : Nat := m * 2 ^ e.toNat

/-- Denominator of the magnitude `m * 2^e` written as a fraction of naturals. -/
def magDen (e : Int) : Nat := 2 ^ (-e).toNat

/-- The comparison `x >= c` against a non-negative integer constant: false on
`NaN`. -/
def JSNumber.geNat : JSNumber → Nat → Bool
  | .nan, _ => false
  | .inf neg, _ => !neg
  | .fin false m e, c => decide (c * magDen e ≤ magNum m e)
  | .fin true m _, c => decide (m = 0 ∧ c = 0)

/-- Number of binary digits of `n`, at most `fuel` of them. -/
def bitLengthFuel : Nat → Nat → Nat
  | 0, _ => 0
  | fuel + 1, n => if n = 0 then 0 else bitLengthFuel fuel (n / 2) + 1

/-- Number of binary digits of `n`: `2^(bitLength n - 1) ≤ n < 2^(bitLength n)`
for positive `n`. -/
def bitLength (n : Nat) : Nat := bitLengthFuel n n

/-- The binary exponent of a positive `a / b`: the `l` with
`2^l ≤ a / b < 2^(l+1)`, which is the difference of the bit lengths or one
less. -/
def quotExponent (a b : Nat) : Int :=
  let d : Int := (bitLength a : Int) - (bitLength b : Int)
  if b * 2 ^ d.toNat ≤ a * 2 ^ (-d).toNat then d else d - 1

/-- The integer nearest to `n / d`, the even one on a tie. -/
def divRoundEven (n d : Nat) : Nat :=
  if 2 * (n % d) < d then n / d
  else if d < 2 * (n % d) then n / d + 1
  else n / d + n / d % 2

/-- The double nearest to `a / b` (for `b > 0`), ties to the even significand,
with the sign `neg`: the result of an IEEE-754 division. The significand `k`
counts units of `2^s`, where `s` is 52 below the binary exponent of `a / b` and
never under `-1074` (subnormal range); a rounded value of `2^1024` or more is an
infinity. -/
def roundQuot (neg : Bool) (a b : Nat) : JSNumber :=
  if a = 0 then .fin neg 0 0
  else
    let s : Int := max (quotExponent a b - 52) (-1074)
    let k := divRoundEven (a * 2 ^ (-s).toNat) (b * 2 ^ s.toNat)
    if 971 < s ∨ (s = 971 ∧ 2 ^ 53 ≤ k) then .inf neg else .fin neg k s

/-- The quotient `x / c` by a positive integer constant that is a double. -/
def JSNumber.divNat : JSNumber → Nat → JSNumber
  | .nan, _ => .nan
  | .inf neg, _ => .inf neg
  | .fin neg m e, c => roundQuot neg (magNum m e) (c * magDen e)

/-- The code unit of a decimal digit. -/
def digitUnit (d : Nat) : CodeUnit := Fin.ofNat (48 + d % 10)

/-- Decimal digits of `n`, most significant first, at most `fuel` of them. -/
def natDigitsFuel : Nat → Nat → JSString
  | 0, _ => []
  | fuel + 1, n =>
    if n < 10 then [digitUnit n] else natDigitsFuel fuel (n / 10) ++ [digitUnit n]

/-- The decimal digits of `n`, `"0"` for zero. -/
def natDigits (n : Nat) : JSString := natDigitsFuel (n + 1) n

/-- The decimal exponent `p` of a positive `a / b`: `10^(p-1) ≤ a / b < 10^p`. -/
def decExponent (a b : Nat) : Int :=
  if b ≤ a then ((natDigits (a / b)).length : Int)
  else 1 - ((natDigits ((b - 1) / a)).length : Int)

/-- Whether the decimal `s * 10^p` is read back as the value `a / b`. -/
def readsBack (a b s : Nat) (p : Int) : Bool :=
  match roundQuot false (s * 10 ^ p.toNat) (10 ^ (-p).toNat) with
  | .fin _ k t => decide (magNum k t * b = a * magDen t)
  | _ => false

/-- The shortest decimal `s * 10^p` that reads back as `a / b`, tried with
`k, k+1, ...` significant digits for `fuel` rounds; of two candidates with the
same number of digits the nearer one, and the even one on a tie. -/
def shortestFrom (a b : Nat) (pe : Int) : Nat → Nat → Nat × Int
  | 0, k => (a * 10 ^ (k - pe).toNat / (b * 10 ^ (pe - k).toNat), pe - k)
  | fuel + 1, k =>
    let p : Int := pe - k
    let n := a * 10 ^ (-p).toNat
    let d := b * 10 ^ p.toNat
    let lo := n / d
    let r := n % d
    let okLo := readsBack a b lo p
    let okHi := readsBack a b (lo + 1) p
    if okLo && okHi then
      (if 2 * r < d then (lo, p) else if d < 2 * r then (lo + 1, p)
       else (lo + lo % 2, p))
    else if okLo then (lo, p)
    else if okHi then (lo + 1, p)
    else shortestFrom a b pe fuel (k + 1)

/-- The shortest round-trip decimal of the positive value `m * 2^e`. -/
def shortestDecimal (m : Nat) (e : Int) : Nat × Int :=
  shortestFrom (magNum m e) (magDen e) (decExponent (magNum m e) (magDen e)) 17 1

/-- `Number::toString` for a finite `x ≥ 10^21`: the shortest round-trip digits
in exponential form, `d.ddd` followed by `e+` and the decimal exponent. -/
def numberToStringLarge (m : Nat) (e : Int) : JSString :=
  let sp := shortestDecimal m e
  let ds := natDigits sp.1
  -- a candidate `10 * 10^p` is the single digit `1` one place higher
  let ds := if sp.1 = 10 ^ (ds.length - 1) then ds.take 1 else ds
  let n : Int := sp.2 + (natDigits sp.1).length
  ds.take 1 ++ (if ds.length ≤ 1 then [] else utf16 "." ++ ds.drop 1)
    ++ utf16 "e+" ++ natDigits (n - 1).toNat

/-- Steps 11.b-11.c of `Number.prototype.toFixed` for two fraction digits: the
digits of the integer `n`, padded on the left with zeros to three digits, with a
point before the last two. -/
def fixedDigits (n : Nat) : JSString :=
  let m := natDigits n
  let m := if m.length ≤ 2 then List.replicate (3 - m.length) (digitUnit 0) ++ m else m
  m.take (m.length - 2) ++ utf16 "." ++ m.drop (m.length - 2)

/-- `Number.prototype.toFixed(2)`: non-finite values and values from `10^21` on
are rendered by `Number::toString`; otherwise the integer nearest to `100 * x`
(the larger one on a tie) is written with two fraction digits. -/
def toFixed2 : JSNumber → JSString
  | .nan => utf16 "NaN"
  | .inf neg => (if neg then utf16 "-" else []) ++ utf16 "Infinity"
  | .fin neg m e =>
    (if neg ∧ m ≠ 0 then utf16 "-" else []) ++
      if 10 ^ 21 * magDen e ≤ magNum m e then numberToStringLarge m e
      else fixedDigits ((200 * magNum m e + magDen e) / (2 * magDen e))

/-- ICU `Grouper::groupAtPosition` for the `en-IN` pattern `#,##,##0.###`
(primary group 3, secondary group 2): whether a separator stands to the right
of the digit of magnitude `i`. -/
def groupAtPosition (i : Nat) : Bool := decide (3 ≤ i ∧ (i - 3) % 2 = 0)

/-- ICU `writeIntegerDigits`: the digits are taken from the least significant
one (magnitude `i`) upwards and put in front of what is written so far, after a
separator where `groupAtPosition` asks for one. -/
def writeIntegerDigits : List CodeUnit → Nat → JSString → JSString
  | [], _, acc => acc
  | d :: ds, i, acc =>
    writeIntegerDigits ds (i + 1) (d :: (if groupAtPosition i then 44 :: acc else acc))

/-- The integer digits `ds` (most significant first) with `en-IN` grouping. -/
def groupIndian (ds : JSString) : JSString := writeIntegerDigits ds.reverse 0 []

/-- The fraction part for `r` thousandths: empty for zero, otherwise a point and
up to three digits without trailing zeros. -/
def fractionDigits (r : Nat) : JSString :=
  if r % 1000 = 0 then []
  else if r % 100 = 0 then utf16 "." ++ [digitUnit (r / 100)]
  else if r % 10 = 0 then utf16 "." ++ [digitUnit (r / 100), digitUnit (r / 10)]
  else utf16 "." ++ [digitUnit (r / 100), digitUnit (r / 10), digitUnit r]

/-- The magnitude `m * 2^e` in thousandths as `toLocaleString` shows it (at most
three fraction digits, rounding half away from zero). An integer below `2^53` is
taken as it is; any other value goes through its shortest round-trip decimal, as
in ICU's conversion of a double. -/
def thousandths (m : Nat) (e : Int) : Nat :=
  if magNum m e % magDen e = 0 ∧ magNum m e / magDen e < 2 ^ 53 then
    1000 * (magNum m e / magDen e)
  else
    let sp := shortestDecimal m e
    (2 * sp.1 * 10 ^ (sp.2 + 3).toNat + 10 ^ (-(sp.2 + 3)).toNat)
      / (2 * 10 ^ (-(sp.2 + 3)).toNat)

/-- `Number.prototype.toLocaleString('en-IN')` with the default options. -/
def toLocaleStringEnIN : JSNumber → JSString
  | .nan => utf16 "NaN"
  | .inf neg => (if neg then utf16 "-" else []) ++ utf16 "∞"
  | .fin neg m e =>
    (if neg then utf16 "-" else []) ++ groupIndian (natDigits (thousandths m e / 1000))
      ++ fractionDigits (thousandths m e % 1000)

/-- The source function `formatCurrency`. -/
def formatCurrency (num : JSNumber) : JSString :=
  if num.geNat 10000000 then utf16 "₹" ++ toFixed2 (num.divNat 10000000) ++ utf16 " Cr"
  else if num.geNat 100000 then utf16 "₹" ++ toFixed2 (num.divNat 100000) ++ utf16 " L"
  else utf16 "₹" ++ toLocaleStringEnIN num

/-- The source function `formatNumber`. -/
def formatNumber (num : JSNumber) : JSString := toLocaleStringEnIN num

/-! ## Page, payloads and effects -/

/-- What a loader can throw inside its `try` block. -/
inductive JSError
  | network
  | syntaxError
  | typeError
  | chartError
  deriving DecidableEq, Repr

deriving instance DecidableEq for Except

/-- A property read from a parsed JSON object: absent (`undefined`), the JSON
`null`, or a value of the type the data model gives the property. -/
inductive Field (α : Type)
  | missing
  | null
  | value (v : α)
  deriving DecidableEq, Repr

/-- The outcome of `fetch(url)` followed by `response.json()`: `fetch` rejects,
`json()` rejects, or a JSON value is delivered. -/
inductive Fetched (α : Type)
  | rejected
  | unparsable
  | parsed (json : Field α)

/-- The `data` object of `sales_overview.json`. -/
structure SalesData where
  total_revenue : Field JSNumber
  total_orders : Field JSNumber
  total_customers : Field JSNumber
  avg_order_value : Field JSNumber

/-- The document `sales_overview.json`. -/
structure SalesJson where
  data : Field SalesData
  generated_at : Field JSString

/-- A document whose `data` is an array of rows. -/
structure RowsJson (ρ : Type) where
  data : Field (List (Field ρ))

/-- A row of `monthly_trends.json`. -/
structure MonthlyPoint where
  month : Field JSString
  revenue : Field JSNumber

/-- A row of `category_sales.json`. -/
structure CategorySlice where
  category : Field JSString
  revenue : Field JSNumber

/-- A row of `customer_segments.json`. -/
structure SegmentCount where
  segment : Field JSString
  customer_count : Field JSNumber

/-- A row of `top_products.json`. -/
structure ProductRevenue where
  product_name : Field JSString
  revenue : Field JSNumber

/-- A row of `store_performance.json`. -/
structure StoreRecord where
  store_name : Field JSString
  city : Field JSString
  region : Field JSString
  revenue : Field JSNumber
  orders : Field JSNumber
  performance_tier : Field JSString

/-- The text elements `loadSalesOverview` writes, named by their `id`. -/
inductive TextId
  | totalRevenue | totalOrders | totalCustomers | avgOrderValue | lastUpdated
  deriving DecidableEq, Repr

/-- The canvases the chart loaders draw on, named by their `id`. -/
inductive CanvasId
  | revenueChart | categoryChart | segmentChart | productsChart
  deriving DecidableEq, Repr

/-- The configuration object handed to `new Chart`: chart type, labels, the
label and the data of its one dataset, the `indexAxis: 'y'` option and whether
the value axis formats its ticks with `formatCurrency`. -/
structure ChartConfig where
  kind : JSString
  labels : List (Field JSString)
  datasetLabel : Option JSString
  values : List (Field JSNumber)
  horizontal : Bool
  currencyTicks : Bool
  deriving DecidableEq

/-- The page as the loaders see it: an element is `none` when the markup lacks
it, otherwise its `textContent`, the charts drawn on it, or its `innerHTML`. -/
structure Dom where
  text : TextId → Option JSString
  canvas : CanvasId → Option (List ChartConfig)
  storeTableBody : Option JSString

/-- One call of `console.error(message, error)` made by the script. -/
structure LogEntry where
  message : JSString
  error : JSError
  deriving DecidableEq

/-- The state the loaders act on. -/
structure World where
  dom : Dom
  console : List LogEntry

/-- Everything outside the script that a page load depends on: the six
resources, whether the `Chart` constructor throws on a canvas, the text of
`new Date(x).toLocaleString()`, and the Unicode lower-casing tables. -/
structure Env where
  salesOverview : Fetched SalesJson
  monthlyTrends : Fetched (RowsJson MonthlyPoint)
  categorySales : Fetched (RowsJson CategorySlice)
  customerSegments : Fetched (RowsJson SegmentCount)
  topProducts : Fetched (RowsJson ProductRevenue)
  storePerformance : Fetched (RowsJson StoreRecord)
  chartThrows : CanvasId → Bool
  dateText : Field JSString → JSString
  unicodeLower : JSString → JSString

/-- A run of statements: the value or the thrown error, and the state left
behind, which is kept when the run throws. -/
def Eff (α : Type) : Type := World → Except JSError α × World

/-- A value without effect. -/
def Eff.pure {α : Type} (a : α) : Eff α := fun w => (.ok a, w)

/-- Sequencing: what follows a throwing statement is skipped. -/
def Eff.bind {α β : Type} (x : Eff α) (f : α → Eff β) : Eff β := fun w =>
  match x w with
  | (.ok a, w') => f a w'
  | (.error e, w') => (.error e, w')

/-- The statement `throw e`. -/
def Eff.throw {α : Type} (e : JSError) : Eff α := fun w => (.error e, w)

/-- The statement `try { body } catch (error) { handler(error) }`. -/
def Eff.tryCatch {α : Type} (body : Eff α) (handler : JSError → Eff α) : Eff α := fun w =>
  match body w with
  | (.ok a, w') => (.ok a, w')
  | (.error e, w') => handler e w'

instance : Monad Eff where
  pure := Eff.pure
  bind := Eff.bind

instance : MonadExcept JSError Eff where
  throw := Eff.throw
  tryCatch := Eff.tryCatch

/-- Reading a property of `o`: a `TypeError` when `o` is `undefined` or `null`. -/
def Field.get {α : Type} : Field α → Eff α
  | .value v => pure v
  | _ => throw JSError.typeError

/-- A string-valued property inside a template literal. -/
def Field.interpolate : Field JSString → JSString
  | .value s => s
  | .null => utf16 "null"
  | .missing => utf16 "undefined"

/-- The statements `await fetch(url)` and `await response.json()`. -/
def fetchJson {α : Type} : Fetched α → Eff α
  | .rejected => throw JSError.network
  | .unparsable => throw JSError.syntaxError
  | .parsed json => json.get

/-- `formatCurrency(v)` on a property: on `undefined` and `null` both
comparisons are false and the call of `toLocaleString` throws. -/
def formatCurrencyField (v : Field JSNumber) : Eff JSString := do
  return formatCurrency (← v.get)

/-- `formatNumber(v)` on a property. -/
def formatNumberField (v : Field JSNumber) : Eff JSString := do
  return formatNumber (← v.get)

/-- The assignment `document.getElementById(id).textContent = v`: a `TypeError`
when the element is absent. -/
def setText (id : TextId) (v : JSString) : Eff Unit := fun w =>
  match w.dom.text id with
  | none => (.error JSError.typeError, w)
  | some _ => (.ok (), { w with dom := { w.dom with text := Function.update w.dom.text id (some v) } })

/-- The expression `new Chart(document.getElementById(id), config)`. The
constructor belongs to Chart.js: whether it throws is given by the environment,
and a constructor that throws is taken to have drawn nothing; when it does not
throw, the chart is drawn on the canvas if the page has it. -/
def newChart (env : Env) (id : CanvasId) (config : ChartConfig) : Eff Unit := fun w =>
  if env.chartThrows id then (.error JSError.chartError, w)
  else
    match w.dom.canvas id with
    | none => (.ok (), w)
    | some charts =>
      (.ok (), { w with dom := { w.dom with
        canvas := Function.update w.dom.canvas id (some (charts ++ [config])) } })

/-- The assignment `tbody.innerHTML = html` for
`tbody = document.querySelector('#store-table tbody')`. -/
def setTableBody (html : JSString) : Eff Unit := fun w =>
  match w.dom.storeTableBody with
  | none => (.error JSError.typeError, w)
  | some _ => (.ok (), { w with dom := { w.dom with storeTableBody := some html } })

/-- The call `console.error(message, error)`. -/
def consoleError (message : JSString) (error : JSError) : Eff Unit := fun w =>
  (.ok (), { w with console := w.console ++ [⟨message, error⟩] })

/-- The call `rows.map(d => f(d))`, where `f` reads properties of the row. -/
def mapRows {ρ β : Type} (rows : List (Field ρ)) (f : ρ → Eff β) : Eff (List β) :=
  match rows with
  | [] => pure []
  | d :: ds => do
    let b ← f (← d.get)
    let bs ← mapRows ds f
    pure (b :: bs)

/-! ## The six loaders -/

/-- The `try` block of `loadSalesOverview`. -/
def loadSalesOverviewBody (env : Env) : Eff Unit := do
  let json ← fetchJson env.salesOverview
  let data := json.data
  setText .totalRevenue (← formatCurrencyField (← data.get).total_revenue)
  setText .totalOrders (← formatNumberField (← data.get).total_orders)
  setText .totalCustomers (← formatNumberField (← data.get).total_customers)
  setText .avgOrderValue (← formatCurrencyField (← data.get).avg_order_value)
  setText .lastUpdated (env.dateText json.generated_at)

/-- The source function `loadSalesOverview`. -/
def loadSalesOverview (env : Env) : Eff Unit :=
  try loadSalesOverviewBody env
  catch error => consoleError (utf16 "Error loading sales overview:") error

/-- The `try` block of `loadMonthlyTrend`. -/
def loadMonthlyTrendBody (env : Env) : Eff Unit := do
  let json ← fetchJson env.monthlyTrends
  let labels ← mapRows (← json.data.get) fun d => pure d.month
  let values ← mapRows (← json.data.get) fun d => pure d.revenue
  newChart env .revenueChart
    { kind := utf16 "line", labels := labels, datasetLabel := some (utf16 "Revenue"),
      values := values, horizontal := false, currencyTicks := true }

/-- The source function `loadMonthlyTrend`. -/
def loadMonthlyTrend (env : Env) : Eff Unit :=
  try loadMonthlyTrendBody env
  catch error => consoleError (utf16 "Error loading monthly trends:") error

/-- The `try` block of `loadCategorySales`. -/
def loadCategorySalesBody (env : Env) : Eff Unit := do
  let json ← fetchJson env.categorySales
  let labels ← mapRows (← json.data.get) fun d => pure d.category
  let values ← mapRows (← json.data.get) fun d => pure d.revenue
  newChart env .categoryChart
    { kind := utf16 "doughnut", labels := labels, datasetLabel := none,
      values := values, horizontal := false, currencyTicks := false }

/-- The source function `loadCategorySales`. -/
def loadCategorySales (env : Env) : Eff Unit :=
  try loadCategorySalesBody env
  catch error => consoleError (utf16 "Error loading category sales:") error

/-- The `try` block of `loadCustomerSegments`. -/
def loadCustomerSegmentsBody (env : Env) : Eff Unit := do
  let json ← fetchJson env.customerSegments
  let labels ← mapRows (← json.data.get) fun d => pure d.segment
  let values ← mapRows (← json.data.get) fun d => pure d.customer_count
  newChart env .segmentChart
    { kind := utf16 "bar", labels := labels, datasetLabel := some (utf16 "Customers"),
      values := values, horizontal := false, currencyTicks := false }

/-- The source function `loadCustomerSegments`. -/
def loadCustomerSegments (env : Env) : Eff Unit :=
  try loadCustomerSegmentsBody env
  catch error => consoleError (utf16 "Error loading customer segments:") error

/-- The `try` block of `loadTopProducts`. -/
def loadTopProductsBody (env : Env) : Eff Unit := do
  let json ← fetchJson env.topProducts
  let labels ← mapRows (← json.data.get) fun d => do
    return Field.value (productLabel (← d.product_name.get))
  let values ← mapRows (← json.data.get) fun d => pure d.revenue
  newChart env .productsChart
    { kind := utf16 "bar", labels := labels, datasetLabel := some (utf16 "Revenue"),
      values := values, horizontal := true, currencyTicks := true }

/-- The source function `loadTopProducts`. -/
def loadTopProducts (env : Env) : Eff Unit :=
  try loadTopProductsBody env
  catch error => consoleError (utf16 "Error loading top products:") error

/-- The row template of `loadStorePerformance` for one store. -/
def storeRow (env : Env) (store : StoreRecord) : Eff JSString := do
  let revenue ← formatCurrencyField store.revenue
  let orders ← formatNumberField store.orders
  let tier ← store.performance_tier.get
  return utf16 "\n            <tr>\n                <td>" ++ store.store_name.interpolate
    ++ utf16 "</td>\n                <td>" ++ store.city.interpolate
    ++ utf16 "</td>\n                <td>" ++ store.region.interpolate
    ++ utf16 "</td>\n                <td>" ++ revenue
    ++ utf16 "</td>\n                <td>" ++ orders
    ++ utf16 "</td>\n                " ++ tierCell env.unicodeLower tier
    ++ utf16 "\n            </tr>\n        "

/-- The `try` block of `loadStorePerformance`. -/
def loadStorePerformanceBody (env : Env) : Eff Unit := do
  let json ← fetchJson env.storePerformance
  let rows ← mapRows (← json.data.get) (storeRow env)
  setTableBody rows.flatten

/-- The source function `loadStorePerformance`. -/
def loadStorePerformance (env : Env) : Eff Unit :=
  try loadStorePerformanceBody env
  catch error => consoleError (utf16 "Error loading store performance:") error

/-! ## Bootstrap and the event loop -/

/-- The six loaders, in the order in which the `DOMContentLoaded` handler calls
them. -/
inductive LoaderId
  | salesOverview | monthlyTrend | categorySales | customerSegments | topProducts
  | storePerformance
  deriving DecidableEq, Repr

/-- The source function behind each name. -/
def loader (env : Env) : LoaderId → Eff Unit
  | .salesOverview => loadSalesOverview env
  | .monthlyTrend => loadMonthlyTrend env
  | .categorySales => loadCategorySales env
  | .customerSegments => loadCustomerSegments env
  | .topProducts => loadTopProducts env
  | .storePerformance => loadStorePerformance env

/-- Whether the `fetch` of a loader rejects. -/
def fetchRejects (env : Env) : LoaderId → Bool
  | .salesOverview => match env.salesOverview with | .rejected => true | _ => false
  | .monthlyTrend => match env.monthlyTrends with | .rejected => true | _ => false
  | .categorySales => match env.categorySales with | .rejected => true | _ => false
  | .customerSegments => match env.customerSegments with | .rejected => true | _ => false
  | .topProducts => match env.topProducts with | .rejected => true | _ => false
  | .storePerformance => match env.storePerformance with | .rejected => true | _ => false

/-- How far a call of an `async` loader has come: not called, suspended at
`await fetch(...)`, suspended at `await response.json()`, or returned, with the
promise of the call fulfilled (`ok`) or rejected (`error`). -/
inductive Stage
  | notCalled
  | awaitingFetch
  | awaitingJson
  | settled (result : Except JSError Unit)
  deriving DecidableEq

/-- The page while the loaders run: the state they act on and the stage of each
call. -/
structure Page where
  world : World
  stage : LoaderId → Stage

/-- The page before `DOMContentLoaded`. -/
def Page.initial (w : World) : Page := { world := w, stage := fun _ => .notCalled }

/-- The call of a loader in the handler: the `async` function runs up to its
first `await`, which only starts the fetch, and hands back a promise. -/
def callLoader (id : LoaderId) (p : Page) : Page :=
  match p.stage id with
  | .notCalled => { p with stage := Function.update p.stage id .awaitingFetch }
  | _ => p

/-- The `DOMContentLoaded` handler: six calls, none awaited. -/
def bootstrap (p : Page) : Page :=
  callLoader .storePerformance (callLoader .topProducts (callLoader .customerSegments
    (callLoader .categorySales (callLoader .monthlyTrend (callLoader .salesOverview p)))))

/-- The rest of a loader from a settled `await` to its end, run in one turn of
the event loop. The statements before the last `await` do not touch the state,
so the turn acts on the state of that moment as the whole function does. -/
def finishLoader (env : Env) (id : LoaderId) (p : Page) : Page :=
  { world := (loader env id p.world).2,
    stage := Function.update p.stage id (.settled (loader env id p.world).1) }

/-- One turn of the event loop: the promise that the call `id` awaits settles and
the call runs on to its next `await` or to its end. A rejected fetch is caught
at once; a fulfilled one leads to `await response.json()`. -/
def resumeLoader (env : Env) (id : LoaderId) (p : Page) : Page :=
  match p.stage id with
  | .awaitingFetch =>
    if fetchRejects env id then finishLoader env id p
    else { p with stage := Function.update p.stage id .awaitingJson }
  | .awaitingJson => finishLoader env id p
  | _ => p

/-- The turns of the event loop in the order `schedule`, which the network
decides. -/
def runSchedule (env : Env) : List LoaderId → Page → Page
  | [], p => p
  | id :: rest, p => runSchedule env rest (resumeLoader env id p)


/-! ## Notions used to state the claims about `loadSalesOverview` -/

/-- A property as an option: `none` when it is `undefined` or `null`. -/
def Field.toOption {α : Type} : Field α → Option α
  | .value v => some v
  | _ => none

/-- The text elements in the order in which `loadSalesOverview` writes them. -/
def salesOrder : List TextId :=
  [.totalRevenue, .totalOrders, .totalCustomers, .avgOrderValue, .lastUpdated]

/-- The text that the statement of `loadSalesOverview` for `id` assigns, `none`
when evaluating its right-hand side throws. -/
def salesText (env : Env) (json : SalesJson) : TextId → Option JSString
  | .totalRevenue => (json.data.toOption.bind (·.total_revenue.toOption)).map formatCurrency
  | .totalOrders => (json.data.toOption.bind (·.total_orders.toOption)).map formatNumber
  | .totalCustomers => (json.data.toOption.bind (·.total_customers.toOption)).map formatNumber
  | .avgOrderValue => (json.data.toOption.bind (·.avg_order_value.toOption)).map formatCurrency
  | .lastUpdated => some (env.dateText json.generated_at)

/-- The statement for `id` goes through on the page `dom`: its right-hand side
gives a text and the element exists. -/
def stepOk (vals : TextId → Option JSString) (dom : Dom) (id : TextId) : Bool :=
  (vals id).isSome && (dom.text id).isSome

/-- The elements `loadSalesOverview` gets to write on the page `dom`: the
statements in order up to the first one that does not go through. -/
def salesWritten (env : Env) (json : SalesJson) (dom : Dom) : List TextId :=
  salesOrder.takeWhile (stepOk (salesText env json) dom)

/-- The state after the assignment of the text `s` to the element `id`. -/
def World.withText (w : World) (id : TextId) (s : JSString) : World :=
  { w with dom := { w.dom with text := Function.update w.dom.text id (some s) } }

/-- The assignment of `v` to the text of the element `id`, followed by `k`: a
`TypeError` when the right-hand side has thrown (`none`) or the element is
absent. -/
def assignText (v : Option JSString) (id : TextId) (k : Eff Unit) : Eff Unit := fun w =>
  match v, w.dom.text id with
  | some s, some _ => k (w.withText id s)
  | _, _ => (.error JSError.typeError, w)

/-- Assigning the texts `vals` to the elements `ids` in order, up to the first
statement that throws. -/
def writeTexts (vals : TextId → Option JSString) : List TextId → Eff Unit
  | [] => pure ()
  | id :: rest => assignText (vals id) id (writeTexts vals rest)

/-! ## Notions used to state the claims about failures -/

/-- A run that only reads: it leaves the state as it found it. -/
def Eff.Reads {α : Type} (x : Eff α) : Prop := ∀ w, (x w).2 = w

/-- A run that leaves the state as it found it whenever it throws. -/
def Eff.FailsClean {α : Type} (x : Eff α) : Prop :=
  ∀ w e, (x w).1 = .error e → (x w).2 = w

/-- Every run of `x` takes a state to one that stands in the relation `R` to
it. -/
def Eff.Respects {α : Type} (R : World → World → Prop) (x : Eff α) : Prop :=
  ∀ w, R w (x w).2

/-- The later state has the charts of `revenueChart` as they were and a console
that continues the earlier one. -/
def Undisturbed (w w' : World) : Prop :=
  w'.dom.canvas .revenueChart = w.dom.canvas .revenueChart ∧ w.console <+: w'.console

/-- The stage of a call after one more turn of its own, given that it returns
normally when it returns. -/
def nextStage (env : Env) (id : LoaderId) : Stage → Stage
  | .awaitingFetch => if fetchRejects env id then .settled (.ok ()) else .awaitingJson
  | .awaitingJson => .settled (.ok ())
  | s => s

/-- The entry that `loadMonthlyTrend` logs when its fetch rejects. -/
def monthlyRejectedEntry : LogEntry :=
  { message := utf16 "Error loading monthly trends:", error := JSError.network }

/-! ## Sample inputs -/

/-- A page with every element present: placeholder texts, empty canvases and an
empty table body. -/
def samplePage : Dom :=
  { text := fun _ => some (utf16 "--"), canvas := fun _ => some [], storeTableBody := some [] }

/-- A page load in which `sales_overview.json` lacks `total_orders` and the
monthly-trends fetch rejects. -/
def sampleEnv : Env :=
  { salesOverview := .parsed (.value
      { data := .value
          { total_revenue := .value (.ofNat 10000000), total_orders := .missing,
            total_customers := .value (.ofNat 5200), avg_order_value := .value (.ofNat 1923) },
        generated_at := .value (utf16 "2024-01-15T10:30:00") })
    monthlyTrends := .rejected
    categorySales := .unparsable
    customerSegments := .parsed .null
    topProducts := .parsed (.value { data := .value (
      [.value { product_name := .value (utf16 "Premium Wireless Mouse Pro"),
                revenue := .value (.ofNat 250000) }]) })
    storePerformance := .parsed (.value { data := .value (
      [.value { store_name := .value (utf16 "Central"), city := .value (utf16 "Pune"),
                region := .value (utf16 "West"), revenue := .value (.ofNat 250000),
                orders := .value (.ofNat 1234567),
                performance_tier := .value (utf16 "Star") }]) })
    chartThrows := fun _ => false
    dateText := fun _ => utf16 "1/15/2024, 10:30:00 AM"
    unicodeLower := id }

/-! ## Notions used to state the claims about the formatters -/

/-- The digits from the right beyond the first three, in pairs, a comma after
every pair that has a further digit to its left. -/
def pairsFromRight : List CodeUnit → List CodeUnit
  | a :: b :: c :: rest => a :: b :: 44 :: pairsFromRight (c :: rest)
  | rest => rest

/-- Indian grouping as the claim words it, reading the digits from the right:
the last three digits, a comma, then pairs of digits separated by commas; no
comma when there are at most three digits, and none in front. -/
def indianGrouping (ds : JSString) : JSString :=
  match ds.reverse with
  | a :: b :: c :: d :: rest => (a :: b :: c :: 44 :: pairsFromRight (d :: rest)).reverse
  | _ => ds

/-- The fraction part of a rendering as a decimal numeral has it: a point and
the three decimal digits of `r` thousandths without the trailing zeros; nothing
at all, the point included, when all three digits are zero. -/
def fractionText (r : Nat) : JSString :=
  let ds := ([r / 100 % 10, r / 10 % 10, r % 10].reverse.dropWhile
    (fun d => decide (d = 0))).reverse
  if ds = [] then [] else utf16 "." ++ ds.map digitUnit

/-- The sign bit of a Number, set for the negative zero too. -/
def JSNumber.signBit : JSNumber → Bool
  | .fin neg _ _ => neg
  | .inf neg => neg
  | .nan => false

/-- The value of a finite Number as a rational, 0 for `NaN` and the infinities. -/
def JSNumber.toRat : JSNumber → ℚ
  | .fin neg m e => (if neg then -1 else 1) * (m : ℚ) * (2 : ℚ) ^ e
  | _ => 0


/-! ## The HTML parser on the tier cell -/

/-- The character data of a cell up to its end tag `</td>`, as the data state of
the HTML tokenizer delivers it: a plain character stands for itself and the
character reference `&amp;` for `&`. The result is `none` when the data holds
any other `&`, any other `<`, a NUL or a carriage return, or no end tag: those
need the rest of the parser. -/
def cellData : JSString → Option JSString
  | [] => none
  | c :: rest =>
    if (c :: rest).take 5 = utf16 "</td>" then some []
    else if c = 38 then
      match rest with
      | a :: m :: p :: s :: rest' =>
        if [a, m, p, s] = utf16 "amp;" then (cellData rest').map (38 :: ·) else none
      | _ => none
    else if c = 60 ∨ c = 0 ∨ c = 13 then none
    else (cellData rest).map (c :: ·)

/-- The tokenizer inside a double-quoted attribute value: everything up to the
next `"` belongs to the value; the tag must then end with `>` for the character
data of the cell to begin. -/
def afterClassValue : JSString → Option JSString
  | [] => none
  | c :: rest =>
    if c = 34 then (if rest.head? = some 62 then cellData rest.tail else none)
    else afterClassValue rest

/-- The text content of the cell that the HTML parser builds from the markup
`<td class="…">…</td>` when it meets it inside a table row: the character data
between the start tag and the end tag. Outside the plain cases above it is what
the parser of the browser makes of the markup, the parameter `parser`. -/
def cellTextContent (parser : JSString → JSString) (markup : JSString) : JSString :=
  if markup.take 11 = utf16 "<td class=\"" then
    (afterClassValue (markup.drop 11)).getD (parser markup)
  else parser markup

/-- ASCII white space: tab, line feed, form feed, carriage return, space. -/
def isHtmlSpace (c : CodeUnit) : Bool :=
  decide (c = 9 ∨ c = 10 ∨ c = 12 ∨ c = 13 ∨ c = 32)

/-- A string without its leading and trailing ASCII white space. -/
def stripSpace (s : JSString) : JSString :=
  (s.dropWhile isHtmlSpace).rdropWhile isHtmlSpace

/-- The text of a cell apart from the white space around it. -/
def cellText (parser : JSString → JSString) (markup : JSString) : JSString :=
  stripSpace (cellTextContent parser markup)

/-- A tier name that the HTML parser takes as plain text: no `<`, `&`, NUL or
carriage return in it, and no `"` in the class value made from it. -/
def plainTier (unicodeLower : JSString → JSString) (tier : JSString) : Bool :=
  tier.all (fun c => decide (c ≠ 60 ∧ c ≠ 38 ∧ c ≠ 0 ∧ c ≠ 13)) &&
    (replaceFirst (utf16 " ") (utf16 "-") (toLowerCase unicodeLower tier)).all
      (fun c => decide (c ≠ 34))

/-- A row of `store_performance.json` whose numbers and tier are present. -/
structure StoreRow where
  store_name : Field JSString
  city : Field JSString
  region : Field JSString
  revenue : JSNumber
  orders : JSNumber
  tier : JSString

/-- The row as it stands in the payload. -/
def StoreRow.record (r : StoreRow) : StoreRecord :=
  { store_name := r.store_name, city := r.city, region := r.region,
    revenue := .value r.revenue, orders := .value r.orders, performance_tier := .value r.tier }

/-- The markup of one table row: five plain cells, then the tier cell. -/
def rowMarkup (unicodeLower : JSString → JSString) (r : StoreRow) : JSString :=
  utf16 "\n            <tr>\n                <td>" ++ r.store_name.interpolate
    ++ utf16 "</td>\n                <td>" ++ r.city.interpolate
    ++ utf16 "</td>\n                <td>" ++ r.region.interpolate
    ++ utf16 "</td>\n                <td>" ++ formatCurrency r.revenue
    ++ utf16 "</td>\n                <td>" ++ formatNumber r.orders
    ++ utf16 "</td>\n                " ++ tierCell unicodeLower r.tier
    ++ utf16 "\n            </tr>\n        "

/-- The store of the sample page load, of the tier `Star`. -/
def starRow : StoreRow :=
  { store_name := .value (utf16 "Central"), city := .value (utf16 "Pune"),
    region := .value (utf16 "West"), revenue := .ofNat 250000, orders := .ofNat 1234567,
    tier := utf16 "Star" }

/-- A store whose tier name holds a character reference. -/
def markupRow : StoreRow := { starRow with tier := utf16 "R&amp;D" }

/-- The sample page load with that store as the only row. -/
def markupEnv : Env :=
  { sampleEnv with
    storePerformance := .parsed (.value { data := .value [.value markupRow.record] }) }

/-! ## Strings: lemmas -/

theorem utf16_ellipsis : utf16 "..." = [46, 46, 46] := by decide

theorem productLabel_eq_take (name : JSString) :
    productLabel name = name.take 20 ++ utf16 "..." := by
  simp [productLabel, substring]

theorem toLowerCase_ascii (lower : JSString → JSString) (s : JSString)
    (h : s.all isAscii = true) : toLowerCase lower s = s.map asciiLower := by
  simp only [toLowerCase, h, if_true]

/-! ## Chart labels (C7, C10) -/

/-- C7: a product name longer than 20 code units gets as its chart label its
first 20 code units followed by `...`; the label has length 23 and its first 20
code units are a prefix of the name. -/
theorem productLabel_long (name : JSString) (h : 20 < name.length) :
    productLabel name = name.take 20 ++ utf16 "..." ∧
    (name.take 20).length = 20 ∧
    (productLabel name).length = 23 ∧
    (productLabel name).take 20 <+: name := by
  have hl : (name.take 20).length = 20 := by
    rw [List.length_take]; omega
  refine ⟨productLabel_eq_take name, hl, ?_, ?_⟩
  · rw [productLabel_eq_take, List.length_append, hl, utf16_ellipsis]; rfl
  · rw [productLabel_eq_take, List.take_append_of_le_length (by omega), List.take_take]
    exact List.take_prefix _ _

theorem productLabel_long_witness :
    20 < (utf16 "Premium Wireless Mouse Pro").length ∧
    productLabel (utf16 "Premium Wireless Mouse Pro") =
      (utf16 "Premium Wireless Mouse Pro").take 20 ++ utf16 "..." :=
  ⟨by decide, (productLabel_long _ (by decide)).1⟩

/-- C10, as stated, fails: the 23-unit name `Premium Wireless Mou...` is its own
label. -/
theorem productLabel_fixed_point :
    productLabel (utf16 "Premium Wireless Mou...") = utf16 "Premium Wireless Mou..." ∧
    ¬ ∀ name : JSString, productLabel name ≠ name := by
  refine ⟨by decide, fun h => h (utf16 "Premium Wireless Mou...") (by decide)⟩

/-- C10, amended: for a name of any length the label is its first
`min length 20` code units followed by `...`, appended unconditionally, so a name
of at most 20 code units (the empty one included) yields the whole name plus
`...`; the label equals the name exactly when the name is 23 code units long and
ends in `...`. -/
theorem productLabel_any_length (name : JSString) :
    productLabel name = name.take (min name.length 20) ++ utf16 "..." ∧
    (productLabel name).length = min name.length 20 + 3 ∧
    productLabel name = (if name.length ≤ 20 then name else name.take 20) ++ utf16 "..." ∧
    productLabel (utf16 "") = utf16 "..." ∧
    (productLabel name = name ↔ name.length = 23 ∧ name.drop 20 = utf16 "...") := by
  have htake : name.take (min name.length 20) = name.take 20 := by
    rcases Nat.lt_or_ge name.length 20 with h | h
    · rw [Nat.min_eq_left (Nat.le_of_lt h), List.take_of_length_le (le_refl _),
        List.take_of_length_le (Nat.le_of_lt h)]
    · rw [Nat.min_eq_right h]
  refine ⟨?_, ?_, ?_, by decide, ?_⟩
  · rw [htake]; exact productLabel_eq_take name
  · rw [productLabel_eq_take, List.length_append, List.length_take, utf16_ellipsis]
    simp [Nat.min_comm]
  · rw [productLabel_eq_take]
    split
    · next h => rw [List.take_of_length_le h]
    · rfl
  · rw [productLabel_eq_take]
    constructor
    · intro h
      have hl := congrArg List.length h
      rw [List.length_append, List.length_take, utf16_ellipsis] at hl
      have h23 : name.length = 23 := by
        simp only [List.length_cons, List.length_nil] at hl
        omega
      refine ⟨h23, ?_⟩
      have hsplit : name.take 20 ++ utf16 "..." = name.take 20 ++ name.drop 20 := by
        rw [List.take_append_drop]; exact h
      exact (List.append_cancel_left hsplit).symm
    · rintro ⟨_, h⟩
      rw [← h]; exact List.take_append_drop 20 name

/-! ## The tier cell (C5, C8) -/

/-- C5 at a tier name with two spaces: only the first space becomes a hyphen, so
the class attribute is `status-needs-more attention`, while lower-casing and
replacing every space gives `status-needs-more-attention`. With one space, as in
`Top Performer`, the two agree. -/
theorem tierClass_first_space_only (lower : JSString → JSString) :
    tierClass lower (utf16 "Needs More Attention") = utf16 "status-needs-more attention" ∧
    utf16 "status-" ++ hyphenateAll lower (utf16 "Needs More Attention")
      = utf16 "status-needs-more-attention" ∧
    tierClass lower (utf16 "Needs More Attention")
      ≠ utf16 "status-" ++ hyphenateAll lower (utf16 "Needs More Attention") ∧
    tierClass lower (utf16 "Top Performer") = utf16 "status-top-performer" := by
  have h1 : toLowerCase lower (utf16 "Needs More Attention") = utf16 "needs more attention" := by
    rw [toLowerCase_ascii _ _ (by decide)]; decide
  have h2 : toLowerCase lower (utf16 "Top Performer") = utf16 "top performer" := by
    rw [toLowerCase_ascii _ _ (by decide)]; decide
  simp only [tierClass, hyphenateAll, h1, h2]
  decide

/-! ## Effects: lemmas -/

theorem run_pure {α : Type} (a : α) (w : World) :
    (pure a : Eff α) w = (.ok a, w) := rfl

theorem run_throw {α : Type} (e : JSError) (w : World) :
    (throw e : Eff α) w = (.error e, w) := rfl

theorem run_bind {α β : Type} (x : Eff α) (f : α → Eff β) (w : World) :
    (x >>= f) w = match x w with
      | (.ok a, w') => f a w'
      | (.error e, w') => (.error e, w') := rfl

theorem run_tryCatch {α : Type} (x : Eff α) (h : JSError → Eff α) (w : World) :
    (tryCatch x h) w = match x w with
      | (.ok a, w') => (.ok a, w')
      | (.error e, w') => h e w' := rfl

theorem reads_pure {α : Type} (a : α) : (pure a : Eff α).Reads := fun _ => rfl

theorem reads_throw {α : Type} (e : JSError) : (throw e : Eff α).Reads := fun _ => rfl

theorem reads_bind {α β : Type} {x : Eff α} {f : α → Eff β}
    (hx : x.Reads) (hf : ∀ a, (f a).Reads) : (x >>= f).Reads := by
  intro w
  have h := hx w
  rw [run_bind]
  rcases hxw : x w with ⟨r, w'⟩
  rw [hxw] at h
  cases r with
  | error e => exact h
  | ok a => exact (hf a w').trans h

theorem reads_get {α : Type} (v : Field α) : v.get.Reads := by
  cases v <;> intro w <;> rfl

theorem fetchJson_reads {α : Type} (r : Fetched α) : (fetchJson r).Reads := by
  cases r with
  | rejected => exact reads_throw _
  | unparsable => exact reads_throw _
  | parsed json => exact reads_get json

theorem mapRows_reads {ρ β : Type} (rows : List (Field ρ)) (f : ρ → Eff β)
    (hf : ∀ d, (f d).Reads) : (mapRows rows f).Reads := by
  induction rows with
  | nil => exact reads_pure _
  | cons d ds ih =>
    unfold mapRows
    exact reads_bind (reads_get d) fun a =>
      reads_bind (hf a) fun _ => reads_bind ih fun _ => reads_pure _

theorem formatCurrencyField_reads (v : Field JSNumber) : (formatCurrencyField v).Reads :=
  reads_bind (reads_get v) fun _ => reads_pure _

theorem formatNumberField_reads (v : Field JSNumber) : (formatNumberField v).Reads :=
  reads_bind (reads_get v) fun _ => reads_pure _

theorem storeRow_reads (env : Env) (store : StoreRecord) : (storeRow env store).Reads :=
  reads_bind (formatCurrencyField_reads _) fun _ =>
    reads_bind (formatNumberField_reads _) fun _ =>
      reads_bind (reads_get _) fun _ => reads_pure _

theorem failsClean_of_reads {α : Type} {x : Eff α} (hx : x.Reads) : x.FailsClean :=
  fun w _ _ => hx w

theorem failsClean_bind {α β : Type} {x : Eff α} {f : α → Eff β} (hx : x.Reads)
    (hf : ∀ a, (f a).FailsClean) : (x >>= f).FailsClean := by
  intro w e h
  have hw := hx w
  rw [run_bind] at h ⊢
  rcases hxw : x w with ⟨r, w'⟩
  rw [hxw] at h hw
  simp only at hw
  subst hw
  cases r with
  | error e' => rfl
  | ok a => exact hf a _ e h

theorem newChart_failsClean (env : Env) (id : CanvasId) (c : ChartConfig) :
    (newChart env id c).FailsClean := by
  intro w e h
  unfold newChart at h ⊢
  split
  · rfl
  · next hc =>
    split
    · rfl
    · next hd => simp [hc, hd] at h

theorem setTableBody_failsClean (html : JSString) : (setTableBody html).FailsClean := by
  intro w e h
  unfold setTableBody at h ⊢
  split
  · rfl
  · next hd => simp [hd] at h

theorem logged_fst (body : Eff Unit) (msg : JSString) (w : World) :
    ((tryCatch body fun e => consoleError msg e) w).1 = .ok () := by
  rw [run_tryCatch]
  rcases body w with ⟨r, w'⟩
  cases r <;> rfl


theorem loadMonthlyTrendBody_failsClean (env : Env) : (loadMonthlyTrendBody env).FailsClean :=
  failsClean_bind (fetchJson_reads _) fun _ =>
    failsClean_bind (reads_get _) fun _ =>
      failsClean_bind (mapRows_reads _ _ fun _ => reads_pure _) fun _ =>
        failsClean_bind (reads_get _) fun _ =>
          failsClean_bind (mapRows_reads _ _ fun _ => reads_pure _) fun _ =>
            newChart_failsClean _ _ _

theorem loadCategorySalesBody_failsClean (env : Env) :
    (loadCategorySalesBody env).FailsClean :=
  failsClean_bind (fetchJson_reads _) fun _ =>
    failsClean_bind (reads_get _) fun _ =>
      failsClean_bind (mapRows_reads _ _ fun _ => reads_pure _) fun _ =>
        failsClean_bind (reads_get _) fun _ =>
          failsClean_bind (mapRows_reads _ _ fun _ => reads_pure _) fun _ =>
            newChart_failsClean _ _ _

theorem loadCustomerSegmentsBody_failsClean (env : Env) :
    (loadCustomerSegmentsBody env).FailsClean :=
  failsClean_bind (fetchJson_reads _) fun _ =>
    failsClean_bind (reads_get _) fun _ =>
      failsClean_bind (mapRows_reads _ _ fun _ => reads_pure _) fun _ =>
        failsClean_bind (reads_get _) fun _ =>
          failsClean_bind (mapRows_reads _ _ fun _ => reads_pure _) fun _ =>
            newChart_failsClean _ _ _

theorem loadTopProductsBody_failsClean (env : Env) : (loadTopProductsBody env).FailsClean :=
  failsClean_bind (fetchJson_reads _) fun _ =>
    failsClean_bind (reads_get _) fun _ =>
      failsClean_bind
        (mapRows_reads _ _ fun _ => reads_bind (reads_get _) fun _ => reads_pure _) fun _ =>
        failsClean_bind (reads_get _) fun _ =>
          failsClean_bind (mapRows_reads _ _ fun _ => reads_pure _) fun _ =>
            newChart_failsClean _ _ _

theorem loadStorePerformanceBody_failsClean (env : Env) :
    (loadStorePerformanceBody env).FailsClean :=
  failsClean_bind (fetchJson_reads _) fun _ =>
    failsClean_bind (reads_get _) fun _ =>
      failsClean_bind (mapRows_reads _ _ fun _ => storeRow_reads _ _) fun _ =>
        setTableBody_failsClean _

theorem toOption_value {α : Type} (v : α) : (Field.value v).toOption = some v := rfl

theorem get_value_bind {α β : Type} (v : α) (f : α → Eff β) :
    (Field.value v).get >>= f = f v := rfl

theorem get_missing_bind {α β : Type} (f : α → Eff β) :
    (Field.missing : Field α).get >>= f = throw JSError.typeError := rfl

theorem get_null_bind {α β : Type} (f : α → Eff β) :
    (Field.null : Field α).get >>= f = throw JSError.typeError := rfl

theorem setText_eq_assignText (id : TextId) (s : JSString) :
    setText id s = assignText (some s) id (pure ()) := by
  funext w
  unfold setText assignText
  cases w.dom.text id <;> rfl

theorem setText_bind (id : TextId) (s : JSString) (k : Eff Unit) :
    (setText id s >>= fun _ => k) = assignText (some s) id k := by
  funext w
  rw [run_bind]
  unfold setText assignText
  cases w.dom.text id <;> rfl

theorem formatCurrencyField_assign (v : Field JSNumber) (id : TextId) (k : Eff Unit) :
    (formatCurrencyField v >>= fun s => setText id s >>= fun _ => k)
      = assignText (v.toOption.map formatCurrency) id k := by
  cases v with
  | value n => exact setText_bind id _ k
  | missing => funext w; cases h : w.dom.text id <;> simp [assignText, Field.toOption] <;> rfl
  | null => funext w; cases h : w.dom.text id <;> simp [assignText, Field.toOption] <;> rfl

theorem formatNumberField_assign (v : Field JSNumber) (id : TextId) (k : Eff Unit) :
    (formatNumberField v >>= fun s => setText id s >>= fun _ => k)
      = assignText (v.toOption.map formatNumber) id k := by
  cases v with
  | value n => exact setText_bind id _ k
  | missing => funext w; cases h : w.dom.text id <;> simp [assignText, Field.toOption] <;> rfl
  | null => funext w; cases h : w.dom.text id <;> simp [assignText, Field.toOption] <;> rfl

theorem assignText_none (id : TextId) (k : Eff Unit) :
    assignText none id k = throw JSError.typeError := by
  funext w
  unfold assignText
  cases w.dom.text id <;> rfl

theorem sales_body_eq_writeTexts (env : Env) (json : SalesJson)
    (h : env.salesOverview = .parsed (.value json)) :
    loadSalesOverviewBody env = writeTexts (salesText env json) salesOrder := by
  unfold loadSalesOverviewBody
  rw [h]
  simp only [fetchJson, get_value_bind]
  rcases json with ⟨data, gen⟩
  cases data with
  | missing =>
    simp only [get_missing_bind, salesOrder, writeTexts, salesText, Field.toOption,
      Option.none_bind, Option.map_none', assignText_none]
  | null =>
    simp only [get_null_bind, salesOrder, writeTexts, salesText, Field.toOption,
      Option.none_bind, Option.map_none', assignText_none]
  | value d =>
    simp only [get_value_bind, formatCurrencyField_assign, formatNumberField_assign]
    simp only [setText_eq_assignText, salesOrder, writeTexts, salesText, toOption_value,
      Option.some_bind]


theorem stepOk_withText (vals : TextId → Option JSString) (w : World) (id : TextId)
    (s t : JSString) (h : w.dom.text id = some t) :
    stepOk vals (w.withText id s).dom = stepOk vals w.dom := by
  funext j
  unfold stepOk World.withText
  by_cases hj : j = id
  · subst hj; simp [h]
  · simp [Function.update_noteq hj]

/-- The run of ordered writes: the elements of the initial run of statements
that go through get their text, every other element keeps its own, nothing else
changes, and the run completes exactly when every statement goes through. -/
theorem writeTexts_run (vals : TextId → Option JSString) (ids : List TextId) (w : World) :
    (∀ j, (writeTexts vals ids w).2.dom.text j
      = (if j ∈ ids.takeWhile (stepOk vals w.dom) then vals j else w.dom.text j)) ∧
    (writeTexts vals ids w).2.dom.canvas = w.dom.canvas ∧
    (writeTexts vals ids w).2.dom.storeTableBody = w.dom.storeTableBody ∧
    (writeTexts vals ids w).2.console = w.console ∧
    ((writeTexts vals ids w).1 = .ok () ↔ ids.takeWhile (stepOk vals w.dom) = ids) := by
  induction ids generalizing w with
  | nil => exact ⟨fun j => by simp [writeTexts, run_pure], rfl, rfl, rfl, by simp [writeTexts, run_pure]⟩
  | cons id rest ih =>
    unfold writeTexts assignText
    cases hv : vals id with
    | none =>
      have hno : stepOk vals w.dom id = false := by simp [stepOk, hv]
      simp [List.takeWhile_cons, hno]
    | some s =>
      cases ht : w.dom.text id with
      | none =>
        have hno : stepOk vals w.dom id = false := by simp [stepOk, ht]
        simp [List.takeWhile_cons, hno]
      | some t =>
        have hyes : stepOk vals w.dom id = true := by simp [stepOk, hv, ht]
        obtain ⟨h1, h2, h3, h4, h5⟩ := ih (w.withText id s)
        rw [stepOk_withText vals w id s t ht] at h1 h5
        simp only [List.takeWhile_cons, hyes, if_true]
        refine ⟨fun j => ?_, h2, h3, h4, ?_⟩
        · rw [h1 j]
          by_cases hj : j ∈ rest.takeWhile (stepOk vals w.dom)
          · simp [hj]
          · by_cases hji : j = id
            · subst hji; simp [hj, hv, World.withText]
            · simp [hj, hji, World.withText, Function.update_noteq hji]
        · rw [h5]; simp

/-! ## Loaders: failures (C6, C9) -/

theorem logged_of_failed (body : Eff Unit) (msg : JSString) (w : World) (e : JSError)
    (hc : body.FailsClean) (h : (body w).1 = .error e) :
    (tryCatch body fun err => consoleError msg err) w
      = (.ok (), { w with console := w.console ++ [⟨msg, e⟩] }) := by
  have h2 := hc w e h
  rw [run_tryCatch]
  rcases hb : body w with ⟨r, w'⟩
  rw [hb] at h h2
  simp only at h h2
  subst h h2
  rfl

theorem logged_dom (body : Eff Unit) (msg : JSString) (w : World) :
    ((tryCatch body fun err => consoleError msg err) w).2.dom = (body w).2.dom := by
  rw [run_tryCatch]
  rcases body w with ⟨r, w'⟩
  cases r <;> rfl

theorem loadSalesOverviewBody_early (env : Env) (w : World)
    (h : ∀ json, env.salesOverview ≠ .parsed (.value json)) :
    (loadSalesOverviewBody env w).2 = w ∧ (loadSalesOverviewBody env w).1 ≠ .ok () := by
  unfold loadSalesOverviewBody
  rw [run_bind]
  cases hs : env.salesOverview with
  | rejected => exact ⟨rfl, by simp [fetchJson, run_throw]⟩
  | unparsable => exact ⟨rfl, by simp [fetchJson, run_throw]⟩
  | parsed json =>
    cases json with
    | value j => exact absurd hs (h j)
    | missing => exact ⟨rfl, by simp [fetchJson, Field.get, run_throw]⟩
    | null => exact ⟨rfl, by simp [fetchJson, Field.get, run_throw]⟩

/-- C6, as stated, fails: with `total_orders` absent from the payload,
`loadSalesOverview` throws at its second statement after it has changed the
text of `total-revenue`. -/
theorem sales_overview_partial_write :
    (loadSalesOverviewBody sampleEnv ⟨samplePage, []⟩).1 = .error JSError.typeError ∧
    samplePage.text .totalRevenue = some (utf16 "--") ∧
    (loadSalesOverview sampleEnv ⟨samplePage, []⟩).2.dom.text .totalRevenue
      = some (utf16 "₹1.00 Cr") ∧
    (loadSalesOverview sampleEnv ⟨samplePage, []⟩).2.console
      = [⟨utf16 "Error loading sales overview:", JSError.typeError⟩] := by
  decide

/-- C6, amended: a loader that throws leaves unchanged whatever it has not yet
written. The four chart loaders and `loadStorePerformance` write once, as their
last step, so after any failure the state is the prior one plus the logged
error. `loadSalesOverview` leaves the page as it was when no JSON object is
delivered; on a delivered object it writes its five texts in order, the texts of
the initial run of statements that go through are the new ones, every other
text and the rest of the page are as before, and it completes without a failure
exactly when all five statements go through. -/
theorem failed_load_keeps_unwritten (env : Env) (w : World) (e : JSError) :
    ((loadMonthlyTrendBody env w).1 = .error e → loadMonthlyTrend env w
      = (.ok (), { w with console :=
          w.console ++ [⟨utf16 "Error loading monthly trends:", e⟩] })) ∧
    ((loadCategorySalesBody env w).1 = .error e → loadCategorySales env w
      = (.ok (), { w with console :=
          w.console ++ [⟨utf16 "Error loading category sales:", e⟩] })) ∧
    ((loadCustomerSegmentsBody env w).1 = .error e → loadCustomerSegments env w
      = (.ok (), { w with console :=
          w.console ++ [⟨utf16 "Error loading customer segments:", e⟩] })) ∧
    ((loadTopProductsBody env w).1 = .error e → loadTopProducts env w
      = (.ok (), { w with console :=
          w.console ++ [⟨utf16 "Error loading top products:", e⟩] })) ∧
    ((loadStorePerformanceBody env w).1 = .error e → loadStorePerformance env w
      = (.ok (), { w with console :=
          w.console ++ [⟨utf16 "Error loading store performance:", e⟩] })) ∧
    ((∀ json, env.salesOverview ≠ .parsed (.value json)) →
      (loadSalesOverview env w).2.dom = w.dom ∧ (loadSalesOverviewBody env w).1 ≠ .ok ()) ∧
    (∀ json, env.salesOverview = .parsed (.value json) →
      (∀ id, (loadSalesOverview env w).2.dom.text id
        = (if id ∈ salesWritten env json w.dom then salesText env json id
           else w.dom.text id)) ∧
      salesWritten env json w.dom <+: salesOrder ∧
      (loadSalesOverview env w).2.dom.canvas = w.dom.canvas ∧
      (loadSalesOverview env w).2.dom.storeTableBody = w.dom.storeTableBody ∧
      ((loadSalesOverviewBody env w).1 = .ok () ↔ salesWritten env json w.dom = salesOrder)) := by
  refine ⟨logged_of_failed _ _ w e (loadMonthlyTrendBody_failsClean env),
    logged_of_failed _ _ w e (loadCategorySalesBody_failsClean env),
    logged_of_failed _ _ w e (loadCustomerSegmentsBody_failsClean env),
    logged_of_failed _ _ w e (loadTopProductsBody_failsClean env),
    logged_of_failed _ _ w e (loadStorePerformanceBody_failsClean env), ?_, ?_⟩
  · intro h
    have hd : (loadSalesOverview env w).2.dom = (loadSalesOverviewBody env w).2.dom :=
      logged_dom _ _ w
    rw [hd, (loadSalesOverviewBody_early env w h).1]
    exact ⟨rfl, (loadSalesOverviewBody_early env w h).2⟩
  · intro json h
    have hd : (loadSalesOverview env w).2.dom = (loadSalesOverviewBody env w).2.dom :=
      logged_dom _ _ w
    rw [hd, sales_body_eq_writeTexts env json h]
    obtain ⟨h1, h2, h3, _, h5⟩ := writeTexts_run (salesText env json) salesOrder w
    exact ⟨h1, List.takeWhile_prefix _, h2, h3, h5⟩

theorem failed_load_keeps_unwritten_witness :
    (loadMonthlyTrendBody sampleEnv ⟨samplePage, []⟩).1 = .error JSError.network ∧
    (loadMonthlyTrend sampleEnv ⟨samplePage, []⟩).2.dom.canvas .revenueChart = some [] :=
  ⟨by decide,
    congrArg (fun r => r.2.dom.canvas .revenueChart)
      ((failed_load_keeps_unwritten sampleEnv ⟨samplePage, []⟩ JSError.network).1 (by decide))⟩

/-! ## The label inside `loadTopProducts` -/

theorem mapRows_values {ρ β : Type} (rows : List ρ) (f : ρ → Eff β) (g : ρ → β)
    (hf : ∀ r ∈ rows, ∀ w, f r w = (.ok (g r), w)) (w : World) :
    mapRows (rows.map Field.value) f w = (.ok (rows.map g), w) := by
  induction rows with
  | nil => rfl
  | cons r rs ih =>
    have h1 := hf r (List.mem_cons_self r rs)
    have h2 := ih fun r' hr' => hf r' (List.mem_cons_of_mem r hr')
    rw [List.map_cons, mapRows]
    simp only [run_bind, Field.get, run_pure, h1, h2, List.map_cons]

/-- When `top_products.json` delivers rows with string names, the chart drawn by
`loadTopProducts` carries one label per row, the `productLabel` of its name. -/
theorem loadTopProducts_labels (env : Env) (w : World)
    (rows : List (JSString × Field JSNumber)) (charts : List ChartConfig)
    (h1 : env.topProducts = .parsed (.value
      { data := .value (rows.map fun r =>
          Field.value { product_name := .value r.1, revenue := r.2 }) }))
    (h2 : env.chartThrows .productsChart = false)
    (h3 : w.dom.canvas .productsChart = some charts) :
    (loadTopProducts env w).2.dom.canvas .productsChart = some (charts ++
      [{ kind := utf16 "bar", labels := rows.map fun r => .value (productLabel r.1),
         datasetLabel := some (utf16 "Revenue"), values := rows.map fun r => r.2,
         horizontal := true, currencyTicks := true }]) := by
  have hd : (loadTopProducts env w).2.dom = (loadTopProductsBody env w).2.dom :=
    logged_dom _ _ w
  rw [hd]
  unfold loadTopProductsBody
  rw [h1]
  have e : (rows.map fun r => Field.value
      ({ product_name := .value r.1, revenue := r.2 } : ProductRevenue))
      = (rows.map fun r => ({ product_name := .value r.1, revenue := r.2 } : ProductRevenue)).map
          Field.value := by
    rw [List.map_map]; rfl
  simp only [fetchJson, get_value_bind, e]
  simp only [run_bind]
  rw [mapRows_values _ _ (fun d => Field.value (productLabel
      (match d.product_name with | .value s => s | _ => [])))]
  · simp only []
    rw [@mapRows_values ProductRevenue (Field JSNumber) _ (fun d => pure d.revenue)
      (fun d => d.revenue) (fun _ _ _ => rfl)]
    simp only [newChart, h2, h3, List.map_map]
    simp [Function.comp_def]
  · intro r hr w'
    obtain ⟨p, _, rfl⟩ := List.mem_map.mp hr
    rfl

theorem loadTopProducts_labels_witness :
    ((loadTopProducts sampleEnv ⟨samplePage, []⟩).2.dom.canvas .productsChart).map
        (fun charts => charts.map fun c => c.labels)
      = some [[.value (utf16 "Premium Wireless Mou...")]] := by
  rw [loadTopProducts_labels sampleEnv ⟨samplePage, []⟩
    [(utf16 "Premium Wireless Mouse Pro", .value (.ofNat 250000))] [] rfl rfl rfl]
  decide

/-! ## The event loop (C9) -/

theorem undisturbed_refl (w : World) : Undisturbed w w := ⟨rfl, List.prefix_refl _⟩

theorem undisturbed_trans {a b c : World} (h1 : Undisturbed a b) (h2 : Undisturbed b c) :
    Undisturbed a c := ⟨h2.1.trans h1.1, h1.2.trans h2.2⟩

theorem respects_of_reads {α : Type} {x : Eff α} (hx : x.Reads) : x.Respects Undisturbed := by
  intro w
  rw [hx w]
  exact undisturbed_refl w

theorem respects_bind {α β : Type} {x : Eff α} {f : α → Eff β}
    (hx : x.Respects Undisturbed) (hf : ∀ a, (f a).Respects Undisturbed) :
    (x >>= f).Respects Undisturbed := by
  intro w
  have h := hx w
  rw [run_bind]
  rcases hxw : x w with ⟨r, w'⟩
  rw [hxw] at h
  cases r with
  | error e => exact h
  | ok a => exact undisturbed_trans h (hf a w')

theorem respects_tryCatch {α : Type} {x : Eff α} {h : JSError → Eff α}
    (hx : x.Respects Undisturbed) (hh : ∀ e, (h e).Respects Undisturbed) :
    (tryCatch x h).Respects Undisturbed := by
  intro w
  have h' := hx w
  rw [run_tryCatch]
  rcases hxw : x w with ⟨r, w'⟩
  rw [hxw] at h'
  cases r with
  | error e => exact undisturbed_trans h' (hh e w')
  | ok a => exact h'

theorem respects_consoleError (msg : JSString) (e : JSError) :
    (consoleError msg e).Respects Undisturbed :=
  fun _ => ⟨rfl, List.prefix_append _ _⟩

theorem respects_setText (id : TextId) (s : JSString) : (setText id s).Respects Undisturbed := by
  intro w
  unfold setText
  split
  · exact undisturbed_refl w
  · exact ⟨rfl, List.prefix_refl _⟩

theorem respects_setTableBody (html : JSString) : (setTableBody html).Respects Undisturbed := by
  intro w
  unfold setTableBody
  split
  · exact undisturbed_refl w
  · exact ⟨rfl, List.prefix_refl _⟩

theorem respects_newChart (env : Env) (id : CanvasId) (c : ChartConfig)
    (hid : id ≠ .revenueChart) : (newChart env id c).Respects Undisturbed := by
  intro w
  unfold newChart
  split
  · exact undisturbed_refl w
  · split
    · exact undisturbed_refl w
    · exact ⟨Function.update_noteq (Ne.symm hid) _ _, List.prefix_refl _⟩

theorem respects_sales (env : Env) : (loadSalesOverview env).Respects Undisturbed := by
  refine respects_tryCatch ?_ fun e => respects_consoleError _ e
  unfold loadSalesOverviewBody
  refine respects_bind (respects_of_reads (fetchJson_reads _)) fun json => ?_
  refine respects_bind (respects_of_reads (reads_get _)) fun _ => ?_
  refine respects_bind (respects_of_reads (formatCurrencyField_reads _)) fun _ => ?_
  refine respects_bind (respects_setText _ _) fun _ => ?_
  refine respects_bind (respects_of_reads (reads_get _)) fun _ => ?_
  refine respects_bind (respects_of_reads (formatNumberField_reads _)) fun _ => ?_
  refine respects_bind (respects_setText _ _) fun _ => ?_
  refine respects_bind (respects_of_reads (reads_get _)) fun _ => ?_
  refine respects_bind (respects_of_reads (formatNumberField_reads _)) fun _ => ?_
  refine respects_bind (respects_setText _ _) fun _ => ?_
  refine respects_bind (respects_of_reads (reads_get _)) fun _ => ?_
  refine respects_bind (respects_of_reads (formatCurrencyField_reads _)) fun _ => ?_
  refine respects_bind (respects_setText _ _) fun _ => ?_
  exact respects_setText _ _

theorem respects_category (env : Env) : (loadCategorySales env).Respects Undisturbed :=
  respects_tryCatch
    (respects_bind (respects_of_reads (fetchJson_reads _)) fun _ =>
      respects_bind (respects_of_reads (reads_get _)) fun _ =>
        respects_bind (respects_of_reads (mapRows_reads _ _ fun _ => reads_pure _)) fun _ =>
          respects_bind (respects_of_reads (reads_get _)) fun _ =>
            respects_bind (respects_of_reads (mapRows_reads _ _ fun _ => reads_pure _)) fun _ =>
              respects_newChart _ _ _ (by decide))
    fun e => respects_consoleError _ e

theorem respects_segments (env : Env) : (loadCustomerSegments env).Respects Undisturbed :=
  respects_tryCatch
    (respects_bind (respects_of_reads (fetchJson_reads _)) fun _ =>
      respects_bind (respects_of_reads (reads_get _)) fun _ =>
        respects_bind (respects_of_reads (mapRows_reads _ _ fun _ => reads_pure _)) fun _ =>
          respects_bind (respects_of_reads (reads_get _)) fun _ =>
            respects_bind (respects_of_reads (mapRows_reads _ _ fun _ => reads_pure _)) fun _ =>
              respects_newChart _ _ _ (by decide))
    fun e => respects_consoleError _ e

theorem respects_products (env : Env) : (loadTopProducts env).Respects Undisturbed :=
  respects_tryCatch
    (respects_bind (respects_of_reads (fetchJson_reads _)) fun _ =>
      respects_bind (respects_of_reads (reads_get _)) fun _ =>
        respects_bind (respects_of_reads
          (mapRows_reads _ _ fun _ => reads_bind (reads_get _) fun _ => reads_pure _)) fun _ =>
          respects_bind (respects_of_reads (reads_get _)) fun _ =>
            respects_bind (respects_of_reads (mapRows_reads _ _ fun _ => reads_pure _)) fun _ =>
              respects_newChart _ _ _ (by decide))
    fun e => respects_consoleError _ e

theorem respects_store (env : Env) : (loadStorePerformance env).Respects Undisturbed :=
  respects_tryCatch
    (respects_bind (respects_of_reads (fetchJson_reads _)) fun _ =>
      respects_bind (respects_of_reads (reads_get _)) fun _ =>
        respects_bind (respects_of_reads (mapRows_reads _ _ fun _ => storeRow_reads _ _)) fun _ =>
          respects_setTableBody _)
    fun e => respects_consoleError _ e

theorem monthly_rejected_run (env : Env) (w : World) (h : env.monthlyTrends = .rejected) :
    loadMonthlyTrend env w
      = (.ok (), { w with console := w.console ++ [monthlyRejectedEntry] }) := by
  apply logged_of_failed _ _ w _ (loadMonthlyTrendBody_failsClean env)
  unfold loadMonthlyTrendBody
  rw [run_bind, h]
  rfl

theorem respects_loader (env : Env) (h : env.monthlyTrends = .rejected) (id : LoaderId) :
    (loader env id).Respects Undisturbed := by
  cases id with
  | salesOverview => exact respects_sales env
  | monthlyTrend =>
    intro w
    show Undisturbed w (loadMonthlyTrend env w).2
    rw [monthly_rejected_run env w h]
    exact ⟨rfl, List.prefix_append _ _⟩
  | categorySales => exact respects_category env
  | customerSegments => exact respects_segments env
  | topProducts => exact respects_products env
  | storePerformance => exact respects_store env

theorem loader_ok (env : Env) (id : LoaderId) (w : World) : (loader env id w).1 = .ok () := by
  cases id <;> exact logged_fst _ _ w

theorem resumeLoader_stage (env : Env) (id id' : LoaderId) (p : Page) :
    (resumeLoader env id' p).stage id
      = if id = id' then nextStage env id (p.stage id) else p.stage id := by
  unfold resumeLoader
  by_cases hid : id = id'
  · subst hid
    simp only [if_true]
    cases hs : p.stage id with
    | notCalled => simp [hs, nextStage]
    | awaitingFetch =>
      simp only [nextStage]
      split <;> simp [finishLoader, loader_ok]
    | awaitingJson => simp [nextStage, finishLoader, loader_ok]
    | settled r => simp [hs, nextStage]
  · simp only [hid, if_false]
    cases p.stage id' with
    | notCalled => rfl
    | awaitingFetch =>
      simp only
      split <;> simp [finishLoader, Function.update_noteq hid]
    | awaitingJson => simp [finishLoader, Function.update_noteq hid]
    | settled r => rfl

theorem runSchedule_stage (env : Env) (id : LoaderId) (schedule : List LoaderId) :
    ∀ p : Page, (runSchedule env schedule p).stage id
      = (nextStage env id)^[schedule.count id] (p.stage id) := by
  induction schedule with
  | nil => intro p; rfl
  | cons id' rest ih =>
    intro p
    rw [runSchedule, ih, resumeLoader_stage]
    by_cases hid : id = id'
    · subst hid
      simp [Function.iterate_succ_apply]
    · have hne : ¬ (id' = id) := fun h => hid h.symm
      simp [hid, hne, List.count_cons]

theorem nextStage_settled (env : Env) (id : LoaderId) (n : Nat) (r : Except JSError Unit) :
    (nextStage env id)^[n] (.settled r) = .settled r := by
  induction n with
  | zero => rfl
  | succ n ih => rw [Function.iterate_succ_apply]; exact ih

theorem nextStage_iterate (env : Env) (id : LoaderId) (n : Nat) :
    (nextStage env id)^[n] .awaitingFetch = .awaitingFetch ∨
    (nextStage env id)^[n] .awaitingFetch = .awaitingJson ∨
    (nextStage env id)^[n] .awaitingFetch = .settled (.ok ()) := by
  induction n with
  | zero => exact Or.inl rfl
  | succ n ih =>
    rw [Function.iterate_succ_apply']
    rcases ih with h | h | h
    · rw [h]
      by_cases hr : fetchRejects env id = true
      · exact Or.inr (Or.inr (by simp [nextStage, hr]))
      · exact Or.inr (Or.inl (by simp [nextStage, hr]))
    · rw [h]; exact Or.inr (Or.inr rfl)
    · rw [h]; exact Or.inr (Or.inr rfl)

theorem nextStage_twice (env : Env) (id : LoaderId) (n : Nat) (h : 2 ≤ n) :
    (nextStage env id)^[n] .awaitingFetch = .settled (.ok ()) := by
  obtain ⟨m, rfl⟩ : ∃ m, n = m + 2 := ⟨n - 2, by omega⟩
  rw [Function.iterate_add_apply]
  have h2 : (nextStage env id)^[2] .awaitingFetch = .settled (.ok ()) := by
    by_cases hr : fetchRejects env id = true <;>
      simp [Function.iterate_succ_apply, nextStage, hr]
  rw [h2, nextStage_settled]

theorem bootstrap_stage (w : World) (id : LoaderId) :
    (bootstrap (.initial w)).stage id = .awaitingFetch := by
  cases id <;> rfl

theorem resumeLoader_respects (env : Env) (h : env.monthlyTrends = .rejected) (id : LoaderId)
    (p : Page) : Undisturbed p.world (resumeLoader env id p).world := by
  unfold resumeLoader
  cases p.stage id with
  | notCalled => exact undisturbed_refl _
  | awaitingFetch =>
    simp only
    split
    · exact respects_loader env h id p.world
    · exact undisturbed_refl _
  | awaitingJson => exact respects_loader env h id p.world
  | settled r => exact undisturbed_refl _

theorem runSchedule_respects (env : Env) (h : env.monthlyTrends = .rejected)
    (schedule : List LoaderId) : ∀ p : Page,
    Undisturbed p.world (runSchedule env schedule p).world := by
  induction schedule with
  | nil => intro p; exact undisturbed_refl _
  | cons id rest ih =>
    intro p
    rw [runSchedule]
    exact undisturbed_trans (resumeLoader_respects env h id p) (ih _)

theorem monthly_logged (env : Env) (h : env.monthlyTrends = .rejected)
    (schedule : List LoaderId) : ∀ p : Page, p.stage .monthlyTrend = .awaitingFetch →
    .monthlyTrend ∈ schedule →
    monthlyRejectedEntry ∈ (runSchedule env schedule p).world.console := by
  induction schedule with
  | nil => intro p _ hm; simp at hm
  | cons id rest ih =>
    intro p hs hm
    rw [runSchedule]
    by_cases hid : id = .monthlyTrend
    · subst hid
      have hrej : fetchRejects env .monthlyTrend = true := by simp [fetchRejects, h]
      have hw : (resumeLoader env .monthlyTrend p).world
          = { p.world with console := p.world.console ++ [monthlyRejectedEntry] } := by
        unfold resumeLoader
        rw [hs]
        simp only [hrej, if_true, finishLoader]
        show (loadMonthlyTrend env p.world).2 = _
        rw [monthly_rejected_run env p.world h]
      have hpre := (runSchedule_respects env h rest (resumeLoader env .monthlyTrend p)).2
      rw [hw] at hpre
      exact hpre.subset (by simp)
    · have hm' : LoaderId.monthlyTrend ∈ rest := by
        rcases List.mem_cons.mp hm with h1 | h1
        · exact absurd h1.symm hid
        · exact h1
      refine ih _ ?_ hm'
      rw [resumeLoader_stage]
      have hne : ¬ (LoaderId.monthlyTrend = id) := fun h => hid h.symm
      simp [hne, hs]

/-- C9: every loader returns normally on every state, whatever the fetch, the
decoding and the rendering do. The handler calls all six loaders and leaves each
suspended at its fetch. In whatever order the event loop then resumes them, no
call ends with a rejected promise, and once each call has had its two turns all
six have returned normally. When the monthly-trends fetch rejects,
`loadMonthlyTrend` leaves the page as it was and logs the failure, the canvas
`revenueChart` never gets a chart, and the failure is on the console once the
call has had a turn. -/
theorem loaders_never_throw (env : Env) (w : World) (schedule : List LoaderId) :
    (∀ id w', (loader env id w').1 = .ok ()) ∧
    (∀ id, (bootstrap (.initial w)).stage id = .awaitingFetch) ∧
    (bootstrap (.initial w)).world = w ∧
    (∀ id e, (runSchedule env schedule (bootstrap (.initial w))).stage id
      ≠ .settled (.error e)) ∧
    ((∀ id, 2 ≤ schedule.count id) →
      ∀ id, (runSchedule env schedule (bootstrap (.initial w))).stage id = .settled (.ok ())) ∧
    (env.monthlyTrends = .rejected →
      loadMonthlyTrend env w
        = (.ok (), { w with console := w.console ++ [monthlyRejectedEntry] }) ∧
      (runSchedule env schedule (bootstrap (.initial w))).world.dom.canvas .revenueChart
        = w.dom.canvas .revenueChart ∧
      (.monthlyTrend ∈ schedule →
        (runSchedule env schedule (bootstrap (.initial w))).stage .monthlyTrend
          = .settled (.ok ()) ∧
        monthlyRejectedEntry
          ∈ (runSchedule env schedule (bootstrap (.initial w))).world.console)) := by
  refine ⟨loader_ok env, bootstrap_stage w, rfl, ?_, ?_, ?_⟩
  · intro id e
    rw [runSchedule_stage, bootstrap_stage]
    rcases nextStage_iterate env id (schedule.count id) with h | h | h <;> rw [h] <;> simp
  · intro hc id
    rw [runSchedule_stage, bootstrap_stage]
    exact nextStage_twice env id _ (hc id)
  · intro h
    refine ⟨monthly_rejected_run env w h, ?_, fun hm => ⟨?_, ?_⟩⟩
    · exact (runSchedule_respects env h schedule (bootstrap (.initial w))).1
    · rw [runSchedule_stage, bootstrap_stage]
      have hrej : fetchRejects env .monthlyTrend = true := by simp [fetchRejects, h]
      obtain ⟨n, hn⟩ : ∃ n, schedule.count .monthlyTrend = n + 1 :=
        ⟨_, (Nat.succ_pred_eq_of_pos (List.count_pos_iff.mpr hm)).symm⟩
      rw [hn, Function.iterate_succ_apply]
      simp only [nextStage, hrej, if_true]
      exact nextStage_settled env _ n _
    · exact monthly_logged env h schedule _ (bootstrap_stage w _) hm

theorem loaders_never_throw_witness :
    sampleEnv.monthlyTrends = .rejected ∧
    (∀ id, 2 ≤ [LoaderId.monthlyTrend, .salesOverview, .salesOverview, .categorySales,
      .customerSegments, .topProducts, .storePerformance, .monthlyTrend, .categorySales,
      .customerSegments, .topProducts, .storePerformance].count id) ∧
    (runSchedule sampleEnv [.monthlyTrend, .salesOverview, .salesOverview, .categorySales,
      .customerSegments, .topProducts, .storePerformance, .monthlyTrend, .categorySales,
      .customerSegments, .topProducts, .storePerformance]
      (bootstrap (.initial ⟨samplePage, []⟩))).stage .storePerformance = .settled (.ok ()) ∧
    (runSchedule sampleEnv [.monthlyTrend, .salesOverview, .salesOverview, .categorySales,
      .customerSegments, .topProducts, .storePerformance, .monthlyTrend, .categorySales,
      .customerSegments, .topProducts, .storePerformance]
      (bootstrap (.initial ⟨samplePage, []⟩))).world.console.head? = some monthlyRejectedEntry :=
  ⟨rfl, fun id => by cases id <;> decide,
    (loaders_never_throw sampleEnv ⟨samplePage, []⟩ _).2.2.2.2.1
      (fun id => by cases id <;> decide) .storePerformance, by decide⟩

/-! ## The tier cell in the table (C8) -/

theorem cellData_cons (c : CodeUnit) (rest : JSString)
    (hc : c ≠ 60 ∧ c ≠ 38 ∧ c ≠ 0 ∧ c ≠ 13) :
    cellData (c :: rest) = (cellData rest).map (c :: ·) := by
  have h5 : ¬ (c :: rest).take 5 = utf16 "</td>" := by
    intro h5
    have h6 := congrArg List.head? h5
    have h7 : (utf16 "</td>").head? = some 60 := by decide
    rw [h7] at h6
    simp only [List.take_succ_cons, List.head?_cons, Option.some.injEq] at h6
    exact hc.1 h6
  have h3 : ¬ (c = 60 ∨ c = 0 ∨ c = 13) := by
    rintro (h | h | h)
    · exact hc.1 h
    · exact hc.2.2.1 h
    · exact hc.2.2.2 h
  rw [cellData.eq_def]
  dsimp only
  rw [if_neg h5, if_neg hc.2.1, if_neg h3]

theorem cellData_end (rest : JSString) : cellData (utf16 "</td>" ++ rest) = some [] := by
  have e : utf16 "</td>" ++ rest = 60 :: (47 :: 116 :: 100 :: 62 :: rest) := rfl
  have h5 : (60 :: (47 :: 116 :: 100 :: 62 :: rest)).take 5 = utf16 "</td>" := rfl
  rw [e, cellData, if_pos h5]

theorem cellData_plain (s rest : JSString)
    (h : ∀ c ∈ s, c ≠ 60 ∧ c ≠ 38 ∧ c ≠ 0 ∧ c ≠ 13) :
    cellData (s ++ utf16 "</td>" ++ rest) = some s := by
  induction s with
  | nil => exact cellData_end rest
  | cons c s ih =>
    have hc := h c (List.mem_cons_self c s)
    have hs := ih fun c' hc' => h c' (List.mem_cons_of_mem c hc')
    have e : (c :: s) ++ utf16 "</td>" ++ rest = c :: (s ++ utf16 "</td>" ++ rest) := rfl
    rw [e, cellData_cons c _ hc, hs]
    rfl

theorem afterClassValue_plain (v data : JSString) (h : ∀ c ∈ v, c ≠ 34) :
    afterClassValue (v ++ utf16 "\">" ++ data) = cellData data := by
  induction v with
  | nil =>
    have e : ([] : JSString) ++ utf16 "\">" ++ data = 34 :: 62 :: data := rfl
    rw [e, afterClassValue]
    simp
  | cons c v ih =>
    have hc := h c (List.mem_cons_self c v)
    have e : (c :: v) ++ utf16 "\">" ++ data = c :: (v ++ utf16 "\">" ++ data) := rfl
    rw [e, afterClassValue, ih fun c' hc' => h c' (List.mem_cons_of_mem c hc')]
    simp [hc]

theorem tierCell_split (lower : JSString → JSString) (tier : JSString) :
    tierCell lower tier = utf16 "<td class=\"" ++ ((utf16 "status-"
        ++ replaceFirst (utf16 " ") (utf16 "-") (toLowerCase lower tier)) ++ utf16 "\">"
      ++ ((utf16 "\n                    " ++ tierText tier ++ utf16 "\n                ")
        ++ utf16 "</td>" ++ [])) := by
  simp [tierCell, tierText, utf16, utf16Char]

theorem tierText_eq (tier : JSString) :
    tierText tier = (if tier = utf16 "Star" then utf16 "⭐ Star" else tier) := by
  unfold tierText
  split
  · next h => rw [h]; decide
  · rfl

theorem indent_before : ∀ c ∈ utf16 "\n                    ",
    isHtmlSpace c = true ∧ (c ≠ 60 ∧ c ≠ 38 ∧ c ≠ 0 ∧ c ≠ 13) := by
  have e : utf16 "\n                    " = 10 :: List.replicate 20 32 := by decide
  intro c hc
  rw [e] at hc
  rcases List.mem_cons.mp hc with h | h
  · subst h; decide
  · rw [(List.mem_replicate.mp h).2]; decide

theorem indent_after : ∀ c ∈ utf16 "\n                ",
    isHtmlSpace c = true ∧ (c ≠ 60 ∧ c ≠ 38 ∧ c ≠ 0 ∧ c ≠ 13) := by
  have e : utf16 "\n                " = 10 :: List.replicate 16 32 := by decide
  intro c hc
  rw [e] at hc
  rcases List.mem_cons.mp hc with h | h
  · subst h; decide
  · rw [(List.mem_replicate.mp h).2]; decide

/-- The text content of the tier cell of a plain tier name: the tier text inside
the indentation of the template. -/
theorem cellTextContent_plain (lower parser : JSString → JSString) (tier : JSString)
    (h : plainTier lower tier = true) :
    cellTextContent parser (tierCell lower tier)
      = utf16 "\n                    " ++ tierText tier ++ utf16 "\n                " := by
  unfold plainTier at h
  simp only [Bool.and_eq_true, List.all_eq_true, decide_eq_true_eq] at h
  obtain ⟨ht, hv⟩ := h
  rw [tierCell_split]
  unfold cellTextContent
  have e1 : ∀ x : JSString, (utf16 "<td class=\"" ++ x).take 11 = utf16 "<td class=\"" :=
    fun x => List.take_left' rfl
  have e2 : ∀ x : JSString, (utf16 "<td class=\"" ++ x).drop 11 = x :=
    fun x => List.drop_left' rfl
  rw [if_pos (e1 _), e2, afterClassValue_plain, cellData_plain]
  · rfl
  · intro c hc
    simp only [List.mem_append] at hc
    rcases hc with (hc | hc) | hc
    · exact (indent_before c hc).2
    · unfold tierText at hc
      simp only [List.mem_append] at hc
      rcases hc with hc | hc
      · split at hc
        · have e : utf16 "⭐ " = [11088, 32] := by decide
          rw [e] at hc
          simp only [List.mem_cons, List.mem_singleton, List.not_mem_nil, or_false] at hc
          rcases hc with h | h <;> subst h <;> decide
        · simp [utf16] at hc
      · exact ht c hc
    · exact (indent_after c hc).2
  · intro c hc
    simp only [List.mem_append] at hc
    rcases hc with hc | hc
    · have e : utf16 "status-" = [115, 116, 97, 116, 117, 115, 45] := by decide
      rw [e] at hc
      simp only [List.mem_cons, List.mem_singleton, List.not_mem_nil, or_false] at hc
      rcases hc with h | h | h | h | h | h | h <;> subst h <;> decide
    · exact hv c hc

theorem rdropWhile_append_of_pos {p : CodeUnit → Bool} (l a : JSString) (h : ∀ c ∈ a, p c) :
    (l ++ a).rdropWhile p = l.rdropWhile p := by
  unfold List.rdropWhile
  rw [List.reverse_append, List.dropWhile_append_of_pos]
  intro c hc
  exact h c (List.mem_reverse.mp hc)

theorem stripSpace_indented (i x a : JSString) (hi : ∀ c ∈ i, isHtmlSpace c = true)
    (ha : ∀ c ∈ a, isHtmlSpace c = true) : stripSpace (i ++ x ++ a) = stripSpace x := by
  unfold stripSpace
  rw [List.append_assoc, List.dropWhile_append_of_pos hi, List.dropWhile_append]
  split
  · next he =>
    have h0 : List.dropWhile isHtmlSpace x = [] := List.isEmpty_iff.mp he
    rw [h0]
    have ha0 : List.dropWhile isHtmlSpace a = [] := by
      rw [List.dropWhile_eq_nil_iff]; exact ha
    rw [ha0]
  · exact rdropWhile_append_of_pos _ _ ha

theorem stripSpace_self (x : JSString) (h1 : ∀ c, x.head? = some c → isHtmlSpace c = false)
    (h2 : ∀ c, x.getLast? = some c → isHtmlSpace c = false) : stripSpace x = x := by
  unfold stripSpace
  have hd : x.dropWhile isHtmlSpace = x := by
    cases x with
    | nil => rfl
    | cons c t =>
      have := h1 c rfl
      simp [List.dropWhile_cons, this]
  rw [hd]
  unfold List.rdropWhile
  have hr : x.reverse.dropWhile isHtmlSpace = x.reverse := by
    cases hx : x.reverse with
    | nil => rfl
    | cons c t =>
      have hc : x.getLast? = some c := by
        rw [← List.head?_reverse, hx]; rfl
      have := h2 c hc
      simp [List.dropWhile_cons, this]
  rw [hr, List.reverse_reverse]

theorem loadStorePerformance_rows (env : Env) (w : World) (rows : List StoreRow)
    (old : JSString)
    (h1 : env.storePerformance = .parsed (.value
      { data := .value (rows.map fun r => Field.value r.record) }))
    (h2 : w.dom.storeTableBody = some old) :
    (loadStorePerformance env w).2.dom.storeTableBody
      = some (rows.map (rowMarkup env.unicodeLower)).flatten := by
  have hd : (loadStorePerformance env w).2.dom = (loadStorePerformanceBody env w).2.dom :=
    logged_dom _ _ w
  rw [hd]
  unfold loadStorePerformanceBody
  rw [h1]
  have e : (rows.map fun r => Field.value r.record)
      = (rows.map fun r => r.record).map Field.value := by
    rw [List.map_map]; rfl
  simp only [fetchJson, get_value_bind, e]
  simp only [run_bind]
  rw [mapRows_values _ _ (fun d => rowMarkup env.unicodeLower
      { store_name := d.store_name, city := d.city, region := d.region,
        revenue := (match d.revenue with | .value n => n | _ => .nan),
        orders := (match d.orders with | .value n => n | _ => .nan),
        tier := (match d.performance_tier with | .value s => s | _ => []) })]
  · simp only [setTableBody, h2, List.map_map]
    rfl
  · intro d hd w'
    obtain ⟨r, _, rfl⟩ := List.mem_map.mp hd
    rfl

theorem rowMarkup_tierCell (lower : JSString → JSString) (r : StoreRow) :
    rowMarkup lower r
      = (utf16 "\n            <tr>\n                <td>" ++ r.store_name.interpolate
          ++ utf16 "</td>\n                <td>" ++ r.city.interpolate
          ++ utf16 "</td>\n                <td>" ++ r.region.interpolate
          ++ utf16 "</td>\n                <td>" ++ formatCurrency r.revenue
          ++ utf16 "</td>\n                <td>" ++ formatNumber r.orders
          ++ utf16 "</td>\n                ")
        ++ tierCell lower r.tier ++ utf16 "\n            </tr>\n        " := by
  unfold rowMarkup
  simp only [List.append_assoc]

/-- C8, as stated, fails: the tier name `R&amp;D` is not `Star`, and the cell
that `loadStorePerformance` writes for it has the text `R&D`, not the tier
name. -/
theorem tier_cell_character_reference :
    (loadStorePerformance markupEnv ⟨samplePage, []⟩).2.dom.storeTableBody
      = some (rowMarkup markupEnv.unicodeLower markupRow) ∧
    markupRow.tier = utf16 "R&amp;D" ∧
    markupRow.tier ≠ utf16 "Star" ∧
    (∀ parser : JSString → JSString,
      cellTextContent parser (tierCell markupEnv.unicodeLower markupRow.tier)
        = utf16 "\n                    R&D\n                " ∧
      cellText parser (tierCell markupEnv.unicodeLower markupRow.tier) = utf16 "R&D" ∧
      cellText parser (tierCell markupEnv.unicodeLower markupRow.tier) ≠ markupRow.tier) := by
  have hc : ∀ parser : JSString → JSString,
      cellTextContent parser (tierCell markupEnv.unicodeLower markupRow.tier)
        = utf16 "\n                    R&D\n                " := by
    intro parser
    have h : afterClassValue ((tierCell markupEnv.unicodeLower markupRow.tier).drop 11)
        = some (utf16 "\n                    R&D\n                ") := by decide
    have h11 : (tierCell markupEnv.unicodeLower markupRow.tier).take 11
        = utf16 "<td class=\"" := by decide
    unfold cellTextContent
    rw [if_pos h11, h]
    rfl
  have ht : ∀ parser : JSString → JSString,
      cellText parser (tierCell markupEnv.unicodeLower markupRow.tier) = utf16 "R&D" := by
    intro parser
    unfold cellText
    rw [hc parser]
    decide
  refine ⟨?_, rfl, by decide, fun parser => ⟨hc parser, ht parser, ?_⟩⟩
  · rw [loadStorePerformance_rows markupEnv ⟨samplePage, []⟩ [markupRow] [] rfl rfl]
    simp
  · rw [ht parser]
    decide

/-- C8, amended: when the payload delivers store rows with their numbers and
tier and the page has the table body, `loadStorePerformance` writes one row of
markup per store, its last cell being the tier cell; for a tier name that the
HTML parser takes as plain text, the text content of that cell is the tier text
inside the indentation of the template, so the cell text apart from that white
space is `⭐ Star` for the tier `Star` and the tier name alone, with no star
glyph prefixed, for every other tier, `Top Performer` and `star` included. -/
theorem tier_cell_text (env : Env) (w : World) (parser : JSString → JSString)
    (rows : List StoreRow) (old : JSString)
    (h1 : env.storePerformance = .parsed (.value
      { data := .value (rows.map fun r => Field.value r.record) }))
    (h2 : w.dom.storeTableBody = some old) :
    (loadStorePerformance env w).2.dom.storeTableBody
      = some (rows.map (rowMarkup env.unicodeLower)).flatten ∧
    (∀ r ∈ rows, ∃ cells : JSString, rowMarkup env.unicodeLower r
      = cells ++ tierCell env.unicodeLower r.tier ++ utf16 "\n            </tr>\n        ") ∧
    (∀ r ∈ rows, plainTier env.unicodeLower r.tier = true →
      cellTextContent parser (tierCell env.unicodeLower r.tier)
        = utf16 "\n                    "
          ++ (if r.tier = utf16 "Star" then utf16 "⭐ Star" else r.tier)
          ++ utf16 "\n                " ∧
      cellText parser (tierCell env.unicodeLower r.tier)
        = (if r.tier = utf16 "Star" then utf16 "⭐ Star" else stripSpace r.tier) ∧
      ((∀ c, r.tier.head? = some c → isHtmlSpace c = false) →
        (∀ c, r.tier.getLast? = some c → isHtmlSpace c = false) →
        stripSpace r.tier = r.tier)) ∧
    cellText parser (tierCell env.unicodeLower (utf16 "Star")) = utf16 "⭐ Star" ∧
    cellText parser (tierCell env.unicodeLower (utf16 "Top Performer"))
      = utf16 "Top Performer" ∧
    cellText parser (tierCell env.unicodeLower (utf16 "star")) = utf16 "star" := by
  have key : ∀ tier : JSString, plainTier env.unicodeLower tier = true →
      cellText parser (tierCell env.unicodeLower tier)
        = (if tier = utf16 "Star" then utf16 "⭐ Star" else stripSpace tier) := by
    intro tier hp
    unfold cellText
    rw [cellTextContent_plain _ _ _ hp,
      stripSpace_indented _ _ _ (fun c hc => (indent_before c hc).1)
        (fun c hc => (indent_after c hc).1), tierText_eq]
    split
    · decide
    · rfl
  have plainAscii : ∀ tier : JSString, tier.all isAscii = true →
      tier.all (fun c => decide (c ≠ 60 ∧ c ≠ 38 ∧ c ≠ 0 ∧ c ≠ 13)) = true →
      (replaceFirst (utf16 " ") (utf16 "-") (tier.map asciiLower)).all
        (fun c => decide (c ≠ 34)) = true →
      plainTier env.unicodeLower tier = true := by
    intro tier ha h3 h4
    unfold plainTier
    rw [toLowerCase_ascii _ _ ha, h3, h4]
    rfl
  refine ⟨loadStorePerformance_rows env w rows old h1 h2,
    fun r _ => ⟨_, rowMarkup_tierCell env.unicodeLower r⟩,
    fun r _ hp => ⟨?_, key r.tier hp, ?_⟩, ?_, ?_, ?_⟩
  · rw [cellTextContent_plain _ _ _ hp, tierText_eq]
  · exact stripSpace_self r.tier
  · rw [key _ (plainAscii _ (by decide) (by decide) (by decide))]; decide
  · rw [key _ (plainAscii _ (by decide) (by decide) (by decide))]; decide
  · rw [key _ (plainAscii _ (by decide) (by decide) (by decide))]; decide

theorem tier_cell_text_witness :
    sampleEnv.storePerformance = .parsed (.value
      { data := .value ([starRow].map fun r => Field.value r.record) }) ∧
    samplePage.storeTableBody = some [] ∧
    plainTier sampleEnv.unicodeLower starRow.tier = true ∧
    (loadStorePerformance sampleEnv ⟨samplePage, []⟩).2.dom.storeTableBody
      = some ([starRow].map (rowMarkup sampleEnv.unicodeLower)).flatten ∧
    cellText id (tierCell sampleEnv.unicodeLower starRow.tier)
      = (if starRow.tier = utf16 "Star" then utf16 "⭐ Star" else stripSpace starRow.tier) :=
  ⟨rfl, rfl, by decide,
    (tier_cell_text sampleEnv ⟨samplePage, []⟩ id [starRow] [] rfl rfl).1,
    ((tier_cell_text sampleEnv ⟨samplePage, []⟩ id [starRow] [] rfl rfl).2.2.1 starRow
      (List.mem_singleton_self _) (by decide)).2.1⟩

/-! ## Digits: lemmas -/

theorem natDigitsFuel_eq (n : Nat) : ∀ f g, n < f → n < g →
    natDigitsFuel f n = natDigitsFuel g n := by
  induction n using Nat.strong_induction_on with
  | _ n ih =>
    intro f g hf hg
    obtain ⟨f', rfl⟩ : ∃ f', f = f' + 1 := ⟨f - 1, by omega⟩
    obtain ⟨g', rfl⟩ : ∃ g', g = g' + 1 := ⟨g - 1, by omega⟩
    unfold natDigitsFuel
    by_cases h : n < 10
    · simp [h]
    · simp only [h, if_false]
      rw [ih (n / 10) (by omega) f' g' (by omega) (by omega)]

theorem natDigits_lt (n : Nat) (h : n < 10) : natDigits n = [digitUnit n] := by
  unfold natDigits natDigitsFuel
  simp [h]

theorem natDigits_ge (n : Nat) (h : 10 ≤ n) :
    natDigits n = natDigits (n / 10) ++ [digitUnit n] := by
  have h' : ¬ n < 10 := by omega
  conv_lhs => unfold natDigits natDigitsFuel
  simp only [h', if_false]
  rw [natDigitsFuel_eq (n / 10) n (n / 10 + 1) (by omega) (by omega)]
  rfl

theorem natDigits_ne_nil (n : Nat) : natDigits n ≠ [] := by
  by_cases h : n < 10
  · rw [natDigits_lt n h]; simp
  · rw [natDigits_ge n (by omega)]; simp

theorem natDigits_getLast? (n : Nat) : (natDigits n).getLast? = some (digitUnit n) := by
  by_cases h : n < 10
  · rw [natDigits_lt n h]; rfl
  · rw [natDigits_ge n (by omega)]; simp

theorem natDigits_length_pos (n : Nat) : 0 < (natDigits n).length :=
  List.length_pos.mpr (natDigits_ne_nil n)

theorem digitUnit_mod (n : Nat) : digitUnit (n % 10) = digitUnit n := by
  unfold digitUnit
  rw [Nat.mod_mod]

/-- The digits of `natDigits` are those of Mathlib's `Nat.digits`, most
significant first. -/
theorem natDigits_eq_digits (n : Nat) (h : 0 < n) :
    natDigits n = ((Nat.digits 10 n).reverse.map digitUnit) := by
  induction n using Nat.strong_induction_on with
  | _ n ih =>
    by_cases h10 : n < 10
    · rw [natDigits_lt n h10, Nat.digits_of_lt 10 n (by omega) h10]
      rfl
    · rw [natDigits_ge n (by omega), ih (n / 10) (by omega) (by omega),
        Nat.digits_def' (by decide) h]
      simp [digitUnit_mod]

/-- Two fraction digits after the integer part: what `toFixed(2)` writes for the
integer `k` of hundredths. -/
theorem fixedDigits_eq (k : Nat) :
    fixedDigits k = natDigits (k / 100) ++ utf16 "." ++ [digitUnit (k / 10), digitUnit k] := by
  unfold fixedDigits
  by_cases h1 : k < 10
  · have e1 : k / 100 = 0 := by omega
    have e2 : k / 10 = 0 := by omega
    rw [natDigits_lt k h1, e1, e2]
    rfl
  · by_cases h2 : k < 100
    · have e1 : k / 100 = 0 := by omega
      rw [natDigits_ge k (by omega), natDigits_lt (k / 10) (by omega), e1]
      rfl
    · have e3 : k / 10 / 10 = k / 100 := by omega
      rw [natDigits_ge k (by omega), natDigits_ge (k / 10) (by omega), e3]
      have e : natDigits (k / 100) ++ [digitUnit (k / 10)] ++ [digitUnit k]
          = natDigits (k / 100) ++ [digitUnit (k / 10), digitUnit k] := by simp
      rw [e]
      have hl := natDigits_length_pos (k / 100)
      have hlen : ¬ (natDigits (k / 100) ++ [digitUnit (k / 10), digitUnit k]).length ≤ 2 := by
        simp only [List.length_append, List.length_cons, List.length_nil]; omega
      have hlen2 : (natDigits (k / 100) ++ [digitUnit (k / 10), digitUnit k]).length - 2
          = (natDigits (k / 100)).length := by
        simp only [List.length_append, List.length_cons, List.length_nil]; omega
      simp only [hlen, if_false, hlen2]
      rw [List.take_left' rfl, List.drop_left' rfl]

/-! ## Grouping: lemmas -/

theorem writeIntegerDigits_pairs (r : List CodeUnit) : ∀ (j : Nat) (acc : JSString), r ≠ [] →
    writeIntegerDigits r (3 + 2 * j) acc = (pairsFromRight r).reverse ++ 44 :: acc := by
  induction r using pairsFromRight.induct with
  | case1 a b c rest ih =>
    intro j acc _
    have g1 : groupAtPosition (3 + 2 * j) = true := by
      simp [groupAtPosition]
    have g2 : groupAtPosition (3 + 2 * j + 1) = false := by
      simp [groupAtPosition]; omega
    rw [writeIntegerDigits, writeIntegerDigits, g1, g2]
    have e : 3 + 2 * j + 1 + 1 = 3 + 2 * (j + 1) := by omega
    rw [e, ih (j + 1) _ (by simp), pairsFromRight]
    simp
  | case2 r hr =>
    intro j acc hne
    have g1 : groupAtPosition (3 + 2 * j) = true := by
      simp [groupAtPosition]
    have g2 : groupAtPosition (3 + 2 * j + 1) = false := by
      simp [groupAtPosition]; omega
    match r, hr, hne with
    | [a], _, _ => simp [writeIntegerDigits, pairsFromRight, g1]
    | [a, b], _, _ => simp [writeIntegerDigits, pairsFromRight, g1, g2]
    | a :: b :: c :: rest, hr, _ => exact absurd rfl (hr a b c rest)

/-- The grouping written by the formatter is the grouping of the claim. -/
theorem groupIndian_eq (ds : JSString) : groupIndian ds = indianGrouping ds := by
  unfold groupIndian indianGrouping
  have hrev : ds = ds.reverse.reverse := (List.reverse_reverse ds).symm
  generalize ds.reverse = r at hrev
  subst hrev
  match r with
  | [] => rfl
  | [a] => rfl
  | [a, b] => rfl
  | [a, b, c] => rfl
  | a :: b :: c :: d :: rest =>
    have s3 : writeIntegerDigits (a :: b :: c :: d :: rest) 0 []
        = writeIntegerDigits (d :: rest) 3 [c, b, a] := rfl
    have := writeIntegerDigits_pairs (d :: rest) 0 [c, b, a] (by simp)
    simp only [Nat.mul_zero, Nat.add_zero] at this
    simp only [List.reverse_reverse]
    rw [s3, this]
    simp

/-! ## `toLocaleString`: lemmas -/

theorem writeIntegerDigits_acc (r : List CodeUnit) : ∀ (i : Nat) (acc : JSString),
    writeIntegerDigits r i acc = writeIntegerDigits r i [] ++ acc := by
  induction r with
  | nil => intro i acc; rfl
  | cons d ds ih =>
    intro i acc
    rw [writeIntegerDigits, writeIntegerDigits, ih (i + 1) (d :: _),
      ih (i + 1) (d :: (if groupAtPosition i = true then [44] else []))]
    cases groupAtPosition i <;> simp

theorem groupIndian_getLast? (ds : JSString) (c : CodeUnit) (h : ds.getLast? = some c) :
    (groupIndian ds).getLast? = some c := by
  unfold groupIndian
  have hrev : ds.reverse.head? = some c := by rw [List.head?_reverse]; exact h
  match hr : ds.reverse, hrev with
  | d :: r, hd =>
    simp only [List.head?_cons, Option.some.injEq] at hd
    subst hd
    rw [writeIntegerDigits, writeIntegerDigits_acc]
    simp [groupAtPosition]

/-- A code unit that is a decimal digit. -/
theorem digitUnit_val (d : Nat) : (digitUnit d).val = 48 + d % 10 := by
  unfold digitUnit
  have : d % 10 < 10 := Nat.mod_lt _ (by decide)
  simp only [Fin.ofNat, Fin.val_mk]
  omega

theorem fractionDigits_getLast? (r : Nat) :
    fractionDigits r = [] ∨ ∃ d, (fractionDigits r).getLast? = some (digitUnit d) := by
  unfold fractionDigits
  split
  · exact Or.inl rfl
  · split
    · exact Or.inr ⟨r / 100, by simp⟩
    · split
      · exact Or.inr ⟨r / 10, by simp⟩
      · exact Or.inr ⟨r, by simp⟩

theorem toLocaleStringEnIN_fin (neg : Bool) (m : Nat) (e : Int) :
    toLocaleStringEnIN (.fin neg m e) = (if neg then utf16 "-" else [])
      ++ groupIndian (natDigits (thousandths m e / 1000))
      ++ fractionDigits (thousandths m e % 1000) := rfl

theorem toLocaleString_fin_getLast? (neg : Bool) (m : Nat) (e : Int) :
    ∃ d, (toLocaleStringEnIN (.fin neg m e)).getLast? = some (digitUnit d) := by
  rw [toLocaleStringEnIN_fin]
  have hg := groupIndian_getLast? _ _ (natDigits_getLast? (thousandths m e / 1000))
  have hne : groupIndian (natDigits (thousandths m e / 1000)) ≠ [] := by
    intro h0; rw [h0] at hg; simp at hg
  rcases fractionDigits_getLast? (thousandths m e % 1000) with h | ⟨d, h⟩
  · refine ⟨thousandths m e / 1000, ?_⟩
    rw [h, List.append_nil, List.getLast?_append_of_ne_nil _ hne]
    exact hg
  · refine ⟨d, ?_⟩
    have hf : fractionDigits (thousandths m e % 1000) ≠ [] := by
      intro h0; rw [h0] at h; simp at h
    rw [List.getLast?_append_of_ne_nil _ hf]
    exact h

theorem not_suffix_of_getLast? {xs suf : JSString} {c c' : CodeUnit}
    (hx : xs.getLast? = some c) (hs : suf.getLast? = some c') (hne : c ≠ c') :
    ¬ suf <:+ xs := by
  rintro ⟨t, rfl⟩
  have hsn : suf ≠ [] := by intro h0; rw [h0] at hs; simp at hs
  rw [List.getLast?_append_of_ne_nil _ hsn, hs] at hx
  exact hne (Option.some.inj hx).symm

theorem thousandths_safe (n : Nat) (h : n < 2 ^ 53) : thousandths n 0 = 1000 * n := by
  have e1 : magNum n 0 = n := by simp [magNum]
  have e2 : magDen 0 = 1 := by simp [magDen]
  unfold thousandths
  rw [e1, e2, if_pos ⟨Nat.mod_one n, by simpa using h⟩]
  simp

/-! ## `formatNumber` and small amounts (C3, C4) -/

/-- C4, as stated, fails: the integer `2^64 = 18446744073709551616` is a double
(`1 * 2^64`), and `formatNumber` renders the shortest decimal that reads back as
it, `18446744073709552000`, not its own digits. -/
theorem formatNumber_beyond_safe :
    (JSNumber.fin false 1 64).IsDouble ∧
    formatNumber (.fin false 1 64) = utf16 "1,84,46,74,40,73,70,95,52,000" ∧
    formatNumber (.ofNat (2 ^ 64)) = utf16 "1,84,46,74,40,73,70,95,52,000" ∧
    indianGrouping (natDigits (2 ^ 64)) = utf16 "1,84,46,74,40,73,70,95,51,616" ∧
    ¬ ∀ n : Nat, formatNumber (.ofNat n) = indianGrouping (natDigits n) := by
  have h0 : formatNumber (.fin false 1 64) = utf16 "1,84,46,74,40,73,70,95,52,000" := by
    set_option maxRecDepth 1000000 in decide
  have h1 : formatNumber (.ofNat (2 ^ 64)) = utf16 "1,84,46,74,40,73,70,95,52,000" := by
    set_option maxRecDepth 1000000 in decide
  have h2 : indianGrouping (natDigits (2 ^ 64)) = utf16 "1,84,46,74,40,73,70,95,51,616" := by
    decide
  refine ⟨by unfold JSNumber.IsDouble; decide, h0, h1, h2, fun h => ?_⟩
  have h3 := h (2 ^ 64)
  rw [h1, h2] at h3
  exact absurd h3 (by decide)

/-- C4, amended: for every non-negative integer `n` below `2^53`, `formatNumber`
gives the decimal digits of `n` with Indian grouping and nothing else: the last
three digits, a comma, then pairs of digits separated by commas, with no comma
for at most three digits; `formatNumber(1234567)` is `12,34,567`. -/
theorem formatNumber_indian (n : Nat) (h : n < 2 ^ 53) :
    formatNumber (.ofNat n) = indianGrouping (natDigits n) ∧
    natDigits n = (if n = 0 then utf16 "0" else (Nat.digits 10 n).reverse.map digitUnit) ∧
    (n < 1000 → formatNumber (.ofNat n) = natDigits n) ∧
    formatNumber (.ofNat 1234567) = utf16 "12,34,567" := by
  have hf : formatNumber (.ofNat n) = indianGrouping (natDigits n) := by
    unfold formatNumber JSNumber.ofNat
    rw [toLocaleStringEnIN_fin, thousandths_safe n h]
    have e1 : 1000 * n / 1000 = n := by omega
    have e2 : 1000 * n % 1000 = 0 := by omega
    rw [e1, e2, groupIndian_eq]
    simp [fractionDigits]
  refine ⟨hf, ?_, ?_, by decide⟩
  · split
    · next h0 => subst h0; decide
    · next h0 => exact natDigits_eq_digits n (Nat.pos_of_ne_zero h0)
  · intro h3
    rw [hf]
    have hlen : (natDigits n).length ≤ 3 := by
      by_cases a : n < 10
      · rw [natDigits_lt n a]; simp
      · rw [natDigits_ge n (by omega)]
        by_cases b : n / 10 < 10
        · rw [natDigits_lt _ b]; simp
        · rw [natDigits_ge _ (by omega), natDigits_lt (n / 10 / 10) (by omega)]; simp
    unfold indianGrouping
    have hl : (natDigits n).reverse.length ≤ 3 := by rw [List.length_reverse]; exact hlen
    match hr : (natDigits n).reverse, hl with
    | [], _ => rfl
    | [_], _ => rfl
    | [_, _], _ => rfl
    | [_, _, _], _ => rfl
    | _ :: _ :: _ :: _ :: _, hl => simp at hl

theorem formatNumber_indian_witness :
    1234567 < 2 ^ 53 ∧
    formatNumber (.ofNat 1234567) = indianGrouping (natDigits 1234567) :=
  ⟨by decide, (formatNumber_indian 1234567 (by decide)).1⟩

theorem geNat_mono (n : JSNumber) (c c' : Nat) (hc : c ≤ c') (h : n.geNat c = false) :
    n.geNat c' = false := by
  cases n with
  | nan => rfl
  | inf neg => exact h
  | fin neg m e =>
    cases neg with
    | true =>
      simp only [JSNumber.geNat, decide_eq_false_iff_not, not_and] at h ⊢
      intro hm hc'
      exact h hm (by omega)
    | false =>
      simp only [JSNumber.geNat, decide_eq_false_iff_not, not_le] at h ⊢
      calc magNum m e < c * magDen e := h
        _ ≤ c' * magDen e := Nat.mul_le_mul_right _ hc

/-! ## Division and `toFixed`: lemmas -/

theorem bitLengthFuel_spec : ∀ (f n : Nat), n ≤ f →
    n < 2 ^ bitLengthFuel f n ∧ (n ≠ 0 → 2 ^ (bitLengthFuel f n - 1) ≤ n) := by
  intro f
  induction f with
  | zero =>
    intro n hn
    have : n = 0 := by omega
    subst this
    simp [bitLengthFuel]
  | succ f ih =>
    intro n hn
    unfold bitLengthFuel
    by_cases h0 : n = 0
    · subst h0; simp
    · simp only [h0, if_false]
      obtain ⟨h1, h2⟩ := ih (n / 2) (by omega)
      refine ⟨?_, fun _ => ?_⟩
      · rw [Nat.pow_succ]; omega
      · simp only [Nat.add_sub_cancel]
        by_cases h3 : n / 2 = 0
        · have hb : bitLengthFuel f (n / 2) = 0 := by
            rw [h3]; cases f <;> simp [bitLengthFuel]
          rw [hb]; simp; omega
        · have h4 := h2 h3
          have hpos : 0 < bitLengthFuel f (n / 2) := by
            by_contra hc
            have : bitLengthFuel f (n / 2) = 0 := by omega
            rw [this] at h1
            simp at h1
            exact h3 h1
          obtain ⟨j, hj⟩ : ∃ j, bitLengthFuel f (n / 2) = j + 1 := ⟨_, (Nat.succ_pred_eq_of_pos hpos).symm⟩
          rw [hj] at h4 ⊢
          simp only [Nat.add_sub_cancel] at h4
          rw [Nat.pow_succ]; omega

theorem lt_two_pow_bitLength (n : Nat) : n < 2 ^ bitLength n :=
  (bitLengthFuel_spec n n (le_refl n)).1

theorem two_pow_bitLength_le (n : Nat) (h : n ≠ 0) : 2 ^ (bitLength n - 1) ≤ n :=
  (bitLengthFuel_spec n n (le_refl n)).2 h

theorem quotExponent_le (a b : Nat) :
    quotExponent a b ≤ (bitLength a : Int) - (bitLength b : Int) := by
  unfold quotExponent
  simp only
  split <;> omega

theorem divRoundEven_le (n d : Nat) : divRoundEven n d ≤ n / d + 1 := by
  unfold divRoundEven
  split
  · omega
  · split <;> omega

/-- A quotient below 128 is rounded to a finite double below `10^21`. -/
theorem roundQuot_small (neg : Bool) (a b : Nat) (h : a < 128 * b) :
    ∃ k s, roundQuot neg a b = .fin neg k s ∧ ¬ 10 ^ 21 * magDen s ≤ magNum k s := by
  by_cases ha : a = 0
  · refine ⟨0, 0, by simp [roundQuot, ha], by simp [magNum, magDen]⟩
  · have hbl : bitLength a ≤ bitLength b + 7 := by
      have h1 := two_pow_bitLength_le a ha
      have h2 := lt_two_pow_bitLength b
      have h3 : 2 ^ (bitLength a - 1) < 2 ^ (bitLength b + 7) := by
        calc 2 ^ (bitLength a - 1) ≤ a := h1
          _ < 128 * b := h
          _ < 128 * 2 ^ bitLength b := by omega
          _ = 2 ^ (bitLength b + 7) := by rw [Nat.pow_add]; omega
      have := (Nat.pow_lt_pow_iff_right (by decide : 1 < 2)).mp h3
      omega
    have hq := quotExponent_le a b
    have hs : max (quotExponent a b - 52) (-1074) ≤ -45 := by
      apply max_le <;> omega
    unfold roundQuot
    simp only [ha, if_false]
    generalize hsd : max (quotExponent a b - 52) (-1074) = s at hs ⊢
    have hs0 : s.toNat = 0 := by omega
    have hno : ¬ (971 < s ∨ s = 971 ∧ 2 ^ 53 ≤ divRoundEven (a * 2 ^ (-s).toNat) (b * 2 ^ s.toNat)) := by
      omega
    simp only [hno, if_false]
    refine ⟨_, _, rfl, ?_⟩
    unfold magNum magDen
    rw [hs0]
    simp only [Nat.pow_zero, Nat.mul_one]
    have hk := divRoundEven_le (a * 2 ^ (-s).toNat) b
    have hP : 0 < 2 ^ (-s).toNat := by positivity
    have hdiv : a * 2 ^ (-s).toNat / b < 128 * 2 ^ (-s).toNat := by
      apply Nat.div_lt_of_lt_mul
      calc a * 2 ^ (-s).toNat < 128 * b * 2 ^ (-s).toNat := Nat.mul_lt_mul_of_pos_right h hP
        _ = b * (128 * 2 ^ (-s).toNat) := by ring
    omega


theorem roundQuot_cases (neg : Bool) (a b : Nat) :
    roundQuot neg a b = .inf neg ∨ ∃ k s, roundQuot neg a b = .fin neg k s := by
  unfold roundQuot
  split
  · exact Or.inr ⟨_, _, rfl⟩
  · simp only
    split
    · exact Or.inl rfl
    · exact Or.inr ⟨_, _, rfl⟩

theorem mag_ratio (m : Nat) (e : Int) :
    (magNum m e : ℚ) / (magDen e : ℚ) = (m : ℚ) * (2 : ℚ) ^ e := by
  unfold magNum magDen
  rcases Int.le_total 0 e with h | h
  · obtain ⟨k, rfl⟩ := Int.eq_ofNat_of_zero_le h
    have h1 : (-(k : Int)).toNat = 0 := by omega
    rw [h1]
    simp
  · obtain ⟨k, hk⟩ := Int.eq_ofNat_of_zero_le (Int.neg_nonneg_of_nonpos h)
    have h1 : e.toNat = 0 := by omega
    have h2 : e = -(k : Int) := by omega
    rw [h1, hk, h2]
    simp [zpow_neg, div_eq_mul_inv]

theorem magDen_pos (e : Int) : 0 < magDen e := by
  unfold magDen
  positivity

/-- The integer of hundredths chosen by `toFixed(2)` is within half a hundredth
of the value. -/
theorem hundredths_near (N D : Nat) (hD : 0 < D) :
    |(((200 * N + D) / (2 * D) : Nat) : ℚ) / 100 - (N : ℚ) / (D : ℚ)| ≤ 1 / 200 := by
  have h1 : 2 * D * ((200 * N + D) / (2 * D)) ≤ 200 * N + D := Nat.mul_div_le _ _
  have h2 : 200 * N + D < 2 * D * ((200 * N + D) / (2 * D) + 1) :=
    Nat.lt_mul_div_succ _ (by omega)
  generalize (200 * N + D) / (2 * D) = K at h1 h2
  have hDq : (0 : ℚ) < D := by exact_mod_cast hD
  have h1q : (2 : ℚ) * D * K ≤ 200 * N + D := by exact_mod_cast h1
  have h2q : (200 : ℚ) * N + D < 2 * D * (K + 1) := by exact_mod_cast h2
  have hx : (N : ℚ) = (N : ℚ) / D * D := by field_simp
  generalize (N : ℚ) / D = x at hx
  rw [hx] at h1q h2q
  have h3 : (2 : ℚ) * K ≤ 200 * x + 1 := by
    by_contra hc
    push_neg at hc
    nlinarith
  have h4 : (200 : ℚ) * x + 1 < 2 * (K + 1) := by
    by_contra hc
    push_neg at hc
    nlinarith
  rw [abs_le]
  constructor <;> linarith

/-- `toFixed(2)` on a finite non-negative value below `10^21`. -/
theorem toFixed2_fixed (k : Nat) (s : Int) (h : ¬ 10 ^ 21 * magDen s ≤ magNum k s) :
    ∃ K : Nat, toFixed2 (.fin false k s)
        = natDigits (K / 100) ++ utf16 "." ++ [digitUnit (K / 10), digitUnit K] ∧
      |(K : ℚ) / 100 - (JSNumber.fin false k s).toRat| ≤ 1 / 200 := by
  refine ⟨(200 * magNum k s + magDen s) / (2 * magDen s), ?_, ?_⟩
  · unfold toFixed2
    simp only [h, if_false, Bool.false_eq_true, false_and, List.nil_append]
    exact fixedDigits_eq _
  · unfold JSNumber.toRat
    simp only [Bool.false_eq_true, if_false, one_mul]
    rw [← mag_ratio]
    exact hundredths_near _ _ (magDen_pos s)

theorem divNat_fin (neg : Bool) (m : Nat) (e : Int) (c : Nat) :
    (JSNumber.fin neg m e).divNat c = roundQuot neg (magNum m e) (c * magDen e) := rfl

/-! ## Division: the rounding error -/

theorem divRoundEven_near (n d : Nat) (hd : 0 < d) :
    2 * (divRoundEven n d * d) ≤ 2 * n + d ∧ 2 * n ≤ 2 * (divRoundEven n d * d) + d := by
  have hn : d * (n / d) + n % d = n := Nat.div_add_mod n d
  have hr : n % d < d := Nat.mod_lt n hd
  have hc : n / d * d = d * (n / d) := Nat.mul_comm _ _
  unfold divRoundEven
  split
  · omega
  · split
    · rw [Nat.add_mul]; omega
    · rw [Nat.add_mul]
      rcases Nat.mod_two_eq_zero_or_one (n / d) with h | h <;> rw [h] <;> omega

theorem divRoundEven_near_rat (n d : Nat) (hd : 0 < d) :
    |(divRoundEven n d : ℚ) - (n : ℚ) / (d : ℚ)| ≤ 1 / 2 := by
  obtain ⟨h1, h2⟩ := divRoundEven_near n d hd
  generalize divRoundEven n d = k at h1 h2
  have hdq : (0 : ℚ) < d := by exact_mod_cast hd
  have h1q : (2 : ℚ) * (k * d) ≤ 2 * n + d := by exact_mod_cast h1
  have h2q : (2 : ℚ) * n ≤ 2 * (k * d) + d := by exact_mod_cast h2
  have hx : (n : ℚ) = (n : ℚ) / d * d := by field_simp
  generalize (n : ℚ) / d = x at hx
  rw [hx] at h1q h2q
  have h3 : (2 : ℚ) * k ≤ 2 * x + 1 := by
    by_contra hc
    push_neg at hc
    nlinarith
  have h4 : (2 : ℚ) * x ≤ 2 * k + 1 := by
    by_contra hc
    push_neg at hc
    nlinarith
  rw [abs_le]
  constructor <;> linarith

theorem two_zpow_ratio (d : Int) :
    ((2 ^ d.toNat : Nat) : ℚ) / ((2 ^ (-d).toNat : Nat) : ℚ) = (2 : ℚ) ^ d := by
  have h := mag_ratio 1 d
  unfold magNum magDen at h
  simpa using h

/-- The binary exponent brackets the quotient: `2^l ≤ a / b < 2^(l+1)`. -/
theorem quotExponent_spec (a b : Nat) (ha : a ≠ 0) (hb : b ≠ 0) :
    (2 : ℚ) ^ quotExponent a b ≤ (a : ℚ) / (b : ℚ) ∧
    (a : ℚ) / (b : ℚ) < (2 : ℚ) ^ (quotExponent a b + 1) := by
  have hbq : (0 : ℚ) < b := by exact_mod_cast Nat.pos_of_ne_zero hb
  have haq : (0 : ℚ) < a := by exact_mod_cast Nat.pos_of_ne_zero ha
  have a1 : ((2 : ℚ) ^ (bitLength a - 1 : Nat)) ≤ a := by
    exact_mod_cast two_pow_bitLength_le a ha
  have a2 : (a : ℚ) < (2 : ℚ) ^ (bitLength a) := by
    exact_mod_cast lt_two_pow_bitLength a
  have b1 : ((2 : ℚ) ^ (bitLength b - 1 : Nat)) ≤ b := by
    exact_mod_cast two_pow_bitLength_le b hb
  have b2 : (b : ℚ) < (2 : ℚ) ^ (bitLength b) := by
    exact_mod_cast lt_two_pow_bitLength b
  have hla : 0 < bitLength a := by
    by_contra hc
    have h0 : bitLength a = 0 := by omega
    have := lt_two_pow_bitLength a
    rw [h0] at this
    omega
  have hlb : 0 < bitLength b := by
    by_contra hc
    have h0 : bitLength b = 0 := by omega
    have := lt_two_pow_bitLength b
    rw [h0] at this
    omega
  have two_pos : ∀ z : Int, (0 : ℚ) < (2 : ℚ) ^ z := fun z => zpow_pos (by norm_num) z
  -- the bit lengths alone: 2^(d-1) < a / b < 2^(d+1)
  have lower : (2 : ℚ) ^ ((bitLength a : Int) - (bitLength b : Int) - 1) ≤ (a : ℚ) / b := by
    rw [le_div_iff₀ hbq]
    have e : (2 : ℚ) ^ ((bitLength a : Int) - (bitLength b : Int) - 1)
        = (2 : ℚ) ^ ((bitLength a - 1 : Nat) : Int) / (2 : ℚ) ^ ((bitLength b : Nat) : Int) := by
      rw [← zpow_sub₀ (by norm_num : (2 : ℚ) ≠ 0)]
      congr 1
      omega
    rw [e, zpow_natCast, zpow_natCast, div_mul_eq_mul_div, div_le_iff₀ (by positivity)]
    have hpos : (0 : ℚ) < (2 : ℚ) ^ (bitLength a - 1 : Nat) := by positivity
    nlinarith
  have upper : (a : ℚ) / b < (2 : ℚ) ^ ((bitLength a : Int) - (bitLength b : Int) + 1) := by
    rw [div_lt_iff₀ hbq]
    have e : (2 : ℚ) ^ ((bitLength a : Int) - (bitLength b : Int) + 1)
        = (2 : ℚ) ^ ((bitLength a : Nat) : Int) / (2 : ℚ) ^ ((bitLength b - 1 : Nat) : Int) := by
      rw [← zpow_sub₀ (by norm_num : (2 : ℚ) ≠ 0)]
      congr 1
      omega
    rw [e, zpow_natCast, zpow_natCast, div_mul_eq_mul_div, lt_div_iff₀ (by positivity)]
    have hpos : (0 : ℚ) < (2 : ℚ) ^ (bitLength b - 1 : Nat) := by positivity
    nlinarith
  unfold quotExponent
  simp only
  generalize ((bitLength a : Int) - (bitLength b : Int)) = d at lower upper ⊢
  have hP : (0 : ℚ) < ((2 ^ (-d).toNat : Nat) : ℚ) := by positivity
  split
  · next hc =>
    refine ⟨?_, upper⟩
    have hcq : (b : ℚ) * ((2 ^ d.toNat : Nat) : ℚ) ≤ a * ((2 ^ (-d).toNat : Nat) : ℚ) := by
      exact_mod_cast hc
    rw [← two_zpow_ratio d, div_le_div_iff₀ hP hbq]
    linarith
  · next hc =>
    refine ⟨lower, ?_⟩
    have hcq : (a : ℚ) * ((2 ^ (-d).toNat : Nat) : ℚ) < b * ((2 ^ d.toNat : Nat) : ℚ) := by
      exact_mod_cast Nat.lt_of_not_le hc
    have e : d - 1 + 1 = d := by omega
    rw [e, ← two_zpow_ratio d, div_lt_div_iff₀ hbq hP]
    linarith

/-- The division is correctly rounded: a finite quotient of at least 1 differs
from the exact `a / b` by at most `2^-53` of it. -/
theorem roundQuot_near (neg : Bool) (a b : Nat) (hb : 0 < b) (hab : b ≤ a) (k : Nat) (s : Int)
    (h : roundQuot neg a b = .fin neg k s) :
    |(k : ℚ) * (2 : ℚ) ^ s - (a : ℚ) / (b : ℚ)| ≤ (a : ℚ) / (b : ℚ) / 2 ^ 53 := by
  have ha : a ≠ 0 := by omega
  have hbq : (0 : ℚ) < b := by exact_mod_cast hb
  obtain ⟨hl1, hl2⟩ := quotExponent_spec a b ha (by omega)
  have hge1 : (1 : ℚ) ≤ (a : ℚ) / b := by
    rw [le_div_iff₀ hbq, one_mul]; exact_mod_cast hab
  have hl0 : 0 ≤ quotExponent a b := by
    by_contra hc
    have hneg : quotExponent a b + 1 ≤ 0 := by omega
    have : (2 : ℚ) ^ (quotExponent a b + 1) ≤ 1 :=
      zpow_le_one_of_nonpos₀ (by norm_num) hneg
    linarith
  unfold roundQuot at h
  simp only [ha, if_false] at h
  have hs : max (quotExponent a b - 52) (-1074) = quotExponent a b - 52 := by
    apply max_eq_left; omega
  rw [hs] at h
  generalize quotExponent a b = l at hl1 hl0 h
  split at h
  · exact absurd h (by simp)
  · simp only [JSNumber.fin.injEq, true_and] at h
    obtain ⟨hk, hsl⟩ := h
    subst hsl
    have hD : 0 < b * 2 ^ (l - 52).toNat := by positivity
    have hnear := divRoundEven_near_rat (a * 2 ^ (-(l - 52)).toNat) (b * 2 ^ (l - 52).toNat) hD
    rw [hk] at hnear
    have hpos : (0 : ℚ) < (2 : ℚ) ^ (l - 52) := zpow_pos (by norm_num) _
    have hratio : ((a * 2 ^ (-(l - 52)).toNat : Nat) : ℚ) / ((b * 2 ^ (l - 52).toNat : Nat) : ℚ)
        = (a : ℚ) / b / (2 : ℚ) ^ (l - 52) := by
      rw [← two_zpow_ratio (l - 52)]
      push_cast
      field_simp
    rw [hratio] at hnear
    have hscale : |(k : ℚ) * (2 : ℚ) ^ (l - 52) - (a : ℚ) / b|
        = |(k : ℚ) - (a : ℚ) / b / (2 : ℚ) ^ (l - 52)| * (2 : ℚ) ^ (l - 52) := by
      rw [← abs_of_pos hpos, ← abs_mul, abs_of_pos hpos]
      congr 1
      field_simp
      ring
    rw [hscale]
    have hulp : (2 : ℚ) ^ (l - 52) ≤ (a : ℚ) / b / 2 ^ 52 := by
      rw [zpow_sub₀ (by norm_num : (2 : ℚ) ≠ 0)]
      have : (2 : ℚ) ^ (52 : Int) = 2 ^ 52 := by norm_num
      rw [this]
      exact div_le_div_of_nonneg_right hl1 (by norm_num)
    calc |(k : ℚ) - (a : ℚ) / b / (2 : ℚ) ^ (l - 52)| * (2 : ℚ) ^ (l - 52)
        ≤ 1 / 2 * (2 : ℚ) ^ (l - 52) := mul_le_mul_of_nonneg_right hnear hpos.le
      _ ≤ 1 / 2 * ((a : ℚ) / b / 2 ^ 52) := by linarith
      _ = (a : ℚ) / b / 2 ^ 53 := by ring

/-- The quotient of a finite non-negative number of at least `c` by `c`, when
finite, is the exact quotient up to one part in `2^53`. -/
theorem divNat_near (m : Nat) (e : Int) (c : Nat) (hc : 0 < c)
    (hge : (JSNumber.fin false m e).geNat c = true) (k : Nat) (s : Int)
    (h : (JSNumber.fin false m e).divNat c = .fin false k s) :
    |(JSNumber.fin false k s).toRat - (JSNumber.fin false m e).toRat / c|
      ≤ (JSNumber.fin false m e).toRat / c / 2 ^ 53 := by
  rw [divNat_fin] at h
  have hD := magDen_pos e
  have hab : c * magDen e ≤ magNum m e := by simpa [JSNumber.geNat] using hge
  have hnear := roundQuot_near false (magNum m e) (c * magDen e) (by positivity) hab k s h
  have hcq : (0 : ℚ) < c := by exact_mod_cast hc
  have hDq : (0 : ℚ) < magDen e := by exact_mod_cast hD
  have e1 : ((magNum m e : Nat) : ℚ) / ((c * magDen e : Nat) : ℚ)
      = (m : ℚ) * (2 : ℚ) ^ e / c := by
    rw [← mag_ratio]
    push_cast
    field_simp
    exact Or.inl (mul_comm _ _)
  rw [e1] at hnear
  unfold JSNumber.toRat
  simpa using hnear

/-! ## `formatCurrency` on large amounts (C1, C2) -/

theorem not_suffix_of_append_getLast? {xs suf : JSString} {c c' : CodeUnit}
    (hs : suf.getLast? = some c') (hne : c ≠ c') : ¬ suf <:+ xs ++ [c] :=
  not_suffix_of_getLast? (by simp) hs hne

/-- C1, as stated, fails: `1e28` is at least `10000000`, its quotient by
`10000000` is the double `10^21`, and `toFixed(2)` renders that in exponential
form, without decimals. -/
theorem formatCurrency_exponential :
    (JSNumber.fin false 4547473508864641 41).IsDouble ∧
    (JSNumber.fin false 4547473508864641 41).geNat 10000000 = true ∧
    formatCurrency (.fin false 4547473508864641 41) = utf16 "₹1e+21 Cr" ∧
    ¬ ∃ k : Nat, formatCurrency (.fin false 4547473508864641 41)
      = utf16 "₹" ++ natDigits (k / 100) ++ utf16 "." ++ [digitUnit (k / 10), digitUnit k]
        ++ utf16 " Cr" := by
  have h : formatCurrency (.fin false 4547473508864641 41) = utf16 "₹1e+21 Cr" := by
    set_option maxRecDepth 1000000 in decide
  refine ⟨by unfold JSNumber.IsDouble; decide, by decide, h, ?_⟩
  rintro ⟨k, hk⟩
  rw [h] at hk
  have hrev := congrArg (fun l => (l.reverse.drop 5).head?) hk
  simp only [List.reverse_append, List.append_assoc] at hrev
  have e1 : (utf16 "₹1e+21 Cr").reverse.drop 5 = utf16 "+e1₹" := by decide
  have e2 : ∀ xs : JSString, ((utf16 " Cr").reverse ++ ([digitUnit (k / 10), digitUnit k].reverse
      ++ ((utf16 ".").reverse ++ xs))).drop 5 = 46 :: xs := fun xs => rfl
  have e3 : (utf16 "+e1₹").head? = some 43 := by decide
  rw [e1, e2, e3] at hrev
  simp at hrev

/-- C1, amended: for every number `n ≥ 10000000` whose quotient `n / 10000000`
is below `10^21`, `formatCurrency(n)` is `₹`, the quotient rounded to the nearest
hundredth and written with exactly two decimals, and ` Cr`; the quotient is the
exact one up to one part in `2^53`; `formatCurrency(10000000)` is `₹1.00 Cr`. -/
theorem formatCurrency_crore (n : JSNumber) (h : n.geNat 10000000 = true)
    (hq : (n.divNat 10000000).geNat (10 ^ 21) = false) :
    (∃ k : Nat, formatCurrency n
        = utf16 "₹" ++ natDigits (k / 100) ++ utf16 "." ++ [digitUnit (k / 10), digitUnit k]
          ++ utf16 " Cr" ∧
      |(k : ℚ) / 100 - (n.divNat 10000000).toRat| ≤ 1 / 200) ∧
    |(n.divNat 10000000).toRat - n.toRat / 10000000| ≤ n.toRat / 10000000 / 2 ^ 53 ∧
    formatCurrency (.ofNat 10000000) = utf16 "₹1.00 Cr" := by
  refine and_assoc.mp ⟨?_, by decide⟩
  have hf : formatCurrency n = utf16 "₹" ++ toFixed2 (n.divNat 10000000) ++ utf16 " Cr" := by
    unfold formatCurrency
    simp [h]
  cases n with
  | nan => simp [JSNumber.geNat] at h
  | inf neg => cases neg <;> simp [JSNumber.geNat, JSNumber.divNat] at h hq
  | fin neg m e =>
    cases neg with
    | true => simp [JSNumber.geNat] at h
    | false =>
      rw [hf]
      rcases roundQuot_cases false (magNum m e) (10000000 * magDen e) with hr | ⟨k, s, hr⟩
      · rw [divNat_fin, hr] at hq; simp [JSNumber.geNat] at hq
      · have hd : (JSNumber.fin false m e).divNat 10000000 = .fin false k s := hr
        have hexact := divNat_near m e 10000000 (by decide) h k s hd
        rw [hd] at hq ⊢
        have hlt : ¬ 10 ^ 21 * magDen s ≤ magNum k s := by
          simpa [JSNumber.geNat] using hq
        obtain ⟨K, hK, hnear⟩ := toFixed2_fixed k s hlt
        exact ⟨⟨K, by rw [hK]; simp, hnear⟩, by simpa using hexact⟩

theorem formatCurrency_crore_witness :
    (JSNumber.ofNat 25000000).geNat 10000000 = true ∧
    ((JSNumber.ofNat 25000000).divNat 10000000).geNat (10 ^ 21) = false ∧
    formatCurrency (.ofNat 10000000) = utf16 "₹1.00 Cr" :=
  ⟨by decide, by decide, (formatCurrency_crore (.ofNat 25000000) (by decide) (by decide)).2.2⟩

/-- C2: for every number `n` with `100000 ≤ n < 10000000`, `formatCurrency(n)`
is `₹`, the quotient `n / 100000` rounded to the nearest hundredth and written
with exactly two decimals, and ` L`, never ` Cr`; the quotient is the exact one
up to one part in `2^53`; `formatCurrency(250000)` is `₹2.50 L`. -/
theorem formatCurrency_lakh (n : JSNumber) (h1 : n.geNat 100000 = true)
    (h2 : n.geNat 10000000 = false) :
    (∃ k : Nat, formatCurrency n
        = utf16 "₹" ++ natDigits (k / 100) ++ utf16 "." ++ [digitUnit (k / 10), digitUnit k]
          ++ utf16 " L" ∧
      |(k : ℚ) / 100 - (n.divNat 100000).toRat| ≤ 1 / 200) ∧
    |(n.divNat 100000).toRat - n.toRat / 100000| ≤ n.toRat / 100000 / 2 ^ 53 ∧
    ¬ utf16 " Cr" <:+ formatCurrency n ∧
    formatCurrency (.ofNat 250000) = utf16 "₹2.50 L" := by
  have hf : formatCurrency n = utf16 "₹" ++ toFixed2 (n.divNat 100000) ++ utf16 " L" := by
    unfold formatCurrency
    simp [h1, h2]
  have hCr : ¬ utf16 " Cr" <:+ formatCurrency n := by
    rw [hf]
    have e : utf16 " L" = utf16 " " ++ [76] := by decide
    rw [e, ← List.append_assoc]
    exact @not_suffix_of_append_getLast? _ _ 76 114 (by decide) (by decide)
  refine and_assoc.mp ⟨?_, hCr, by decide⟩
  cases n with
  | nan => simp [JSNumber.geNat] at h1
  | inf neg => cases neg <;> simp [JSNumber.geNat] at h1 h2
  | fin neg m e =>
    cases neg with
    | true => simp [JSNumber.geNat] at h1
    | false =>
      rw [hf]
      have hlt : magNum m e < 128 * (100000 * magDen e) := by
        have : magNum m e < 10000000 * magDen e := by simpa [JSNumber.geNat] using h2
        omega
      obtain ⟨k, s, hr, hb⟩ := roundQuot_small false (magNum m e) (100000 * magDen e) hlt
      have hd : (JSNumber.fin false m e).divNat 100000 = .fin false k s := hr
      have hexact := divNat_near m e 100000 (by decide) h1 k s hd
      rw [hd]
      obtain ⟨K, hK, hnear⟩ := toFixed2_fixed k s hb
      exact ⟨⟨K, by rw [hK]; simp, hnear⟩, by simpa using hexact⟩

theorem formatCurrency_lakh_witness :
    (JSNumber.ofNat 250000).geNat 100000 = true ∧
    (JSNumber.ofNat 250000).geNat 10000000 = false ∧
    ¬ utf16 " Cr" <:+ formatCurrency (.ofNat 250000) :=
  ⟨by decide, by decide, (formatCurrency_lakh (.ofNat 250000) (by decide) (by decide)).2.2.1⟩

/-! ## Amounts below one lakh (C3) -/

theorem fractionDigits_eq_text (r : Nat) : fractionDigits r = fractionText r := by
  have ha : r % 10 = 0 ∨ r % 10 ≠ 0 := by omega
  have hb : r / 10 % 10 = 0 ∨ r / 10 % 10 ≠ 0 := by omega
  have hc : r / 100 % 10 = 0 ∨ r / 100 % 10 ≠ 0 := by omega
  have d1 : digitUnit (r / 100 % 10) = digitUnit (r / 100) := digitUnit_mod _
  have d2 : digitUnit (r / 10 % 10) = digitUnit (r / 10) := digitUnit_mod _
  have d3 : digitUnit (r % 10) = digitUnit r := digitUnit_mod _
  unfold fractionDigits fractionText
  rcases ha with ha | ha
  · rcases hb with hb | hb
    · rcases hc with hc | hc
      · have h1 : r % 1000 = 0 := by omega
        simp [h1, ha, hb, hc]
      · have h1 : r % 1000 ≠ 0 := by omega
        have h2 : r % 100 = 0 := by omega
        simp [h1, h2, ha, hb, hc, d1]
    · have h1 : r % 1000 ≠ 0 := by omega
      have h2 : r % 100 ≠ 0 := by omega
      simp [h1, h2, ha, hb, d1, d2]
  · have h1 : r % 1000 ≠ 0 := by omega
    have h2 : r % 100 ≠ 0 := by omega
    simp [h1, h2, ha, d1, d2, d3]

theorem ten_zpow_ratio (d : Int) :
    ((10 ^ d.toNat : Nat) : ℚ) / ((10 ^ (-d).toNat : Nat) : ℚ) = (10 : ℚ) ^ d := by
  rcases Int.le_total 0 d with h | h
  · obtain ⟨k, rfl⟩ := Int.eq_ofNat_of_zero_le h
    have h1 : (-(k : Int)).toNat = 0 := by omega
    rw [h1]
    simp
  · obtain ⟨k, hk⟩ := Int.eq_ofNat_of_zero_le (Int.neg_nonneg_of_nonpos h)
    have h1 : d.toNat = 0 := by omega
    have h2 : d = -(k : Int) := by omega
    rw [h1, hk, h2]
    simp [zpow_neg, div_eq_mul_inv]

/-- The division is correctly rounded: a finite quotient differs from the exact
`a / b` by at most half a unit of its last place, and its significand has 53
bits unless it is in the lowest binade. -/
theorem roundQuot_error (neg : Bool) (a b : Nat) (ha : a ≠ 0) (hb : 0 < b) (k : Nat) (s : Int)
    (h : roundQuot neg a b = .fin neg k s) :
    |(k : ℚ) * (2 : ℚ) ^ s - (a : ℚ) / (b : ℚ)| ≤ (2 : ℚ) ^ s / 2 ∧
    (s = -1074 ∨ 2 ^ 52 ≤ k) := by
  have hbq : (0 : ℚ) < b := by exact_mod_cast hb
  obtain ⟨hl1, hl2⟩ := quotExponent_spec a b ha (by omega)
  unfold roundQuot at h
  simp only [ha, if_false] at h
  generalize hsd : max (quotExponent a b - 52) (-1074) = t at h
  split at h
  · exact absurd h (by simp)
  · simp only [JSNumber.fin.injEq, true_and] at h
    obtain ⟨hk, hsl⟩ := h
    subst hsl
    have hD : 0 < b * 2 ^ t.toNat := by positivity
    have hnear := divRoundEven_near_rat (a * 2 ^ (-t).toNat) (b * 2 ^ t.toNat) hD
    rw [hk] at hnear
    have hpos : (0 : ℚ) < (2 : ℚ) ^ t := zpow_pos (by norm_num) _
    have hratio : ((a * 2 ^ (-t).toNat : Nat) : ℚ) / ((b * 2 ^ t.toNat : Nat) : ℚ)
        = (a : ℚ) / b / (2 : ℚ) ^ t := by
      rw [← two_zpow_ratio t]
      push_cast
      field_simp
    rw [hratio] at hnear
    have hscale : |(k : ℚ) * (2 : ℚ) ^ t - (a : ℚ) / b|
        = |(k : ℚ) - (a : ℚ) / b / (2 : ℚ) ^ t| * (2 : ℚ) ^ t := by
      rw [← abs_of_pos hpos, ← abs_mul, abs_of_pos hpos]
      congr 1
      field_simp
      ring
    refine ⟨?_, ?_⟩
    · rw [hscale]
      calc |(k : ℚ) - (a : ℚ) / b / (2 : ℚ) ^ t| * (2 : ℚ) ^ t
          ≤ 1 / 2 * (2 : ℚ) ^ t := mul_le_mul_of_nonneg_right hnear hpos.le
        _ = (2 : ℚ) ^ t / 2 := by ring
    · by_cases ht : t = -1074
      · exact Or.inl ht
      · right
        have hte : t = quotExponent a b - 52 := by
          rcases max_cases (quotExponent a b - 52) (-1074) with ⟨h1, _⟩ | ⟨h1, _⟩
          · rw [← hsd, h1]
          · exact absurd (hsd ▸ h1 : t = -1074) ht
        have hx : (2 : ℚ) ^ (52 : Nat) ≤ (a : ℚ) / b / (2 : ℚ) ^ t := by
          rw [le_div_iff₀ hpos, hte]
          have e : (2 : ℚ) ^ (52 : Nat) * (2 : ℚ) ^ (quotExponent a b - 52)
              = (2 : ℚ) ^ quotExponent a b := by
            rw [← zpow_natCast, ← zpow_add₀ (by norm_num : (2 : ℚ) ≠ 0)]
            congr 1
            push_cast
            ring
          rw [e]
          exact hl1
        have hk1 : (2 : ℚ) ^ (52 : Nat) - 1 / 2 ≤ (k : ℚ) := by
          have := (abs_le.mp hnear).1
          linarith
        have hk2 : ((2 ^ 52 - 1 : Nat) : ℚ) < (k : ℚ) := by
          have e : ((2 ^ 52 - 1 : Nat) : ℚ) = (2 : ℚ) ^ (52 : Nat) - 1 := by norm_num
          rw [e]
          linarith
        have hk3 : 2 ^ 52 - 1 < k := by exact_mod_cast hk2
        omega


theorem half_up_near (N D : Nat) (hD : 0 < D) :
    |(((2 * N + D) / (2 * D) : Nat) : ℚ) - (N : ℚ) / (D : ℚ)| ≤ 1 / 2 := by
  have h1 : 2 * D * ((2 * N + D) / (2 * D)) ≤ 2 * N + D := Nat.mul_div_le _ _
  have h2 : 2 * N + D < 2 * D * ((2 * N + D) / (2 * D) + 1) :=
    Nat.lt_mul_div_succ _ (by omega)
  generalize (2 * N + D) / (2 * D) = K at h1 h2
  have hDq : (0 : ℚ) < D := by exact_mod_cast hD
  have h1q : (2 : ℚ) * D * K ≤ 2 * N + D := by exact_mod_cast h1
  have h2q : (2 : ℚ) * N + D < 2 * D * (K + 1) := by exact_mod_cast h2
  have hx : (N : ℚ) = (N : ℚ) / D * D := by field_simp
  generalize (N : ℚ) / D = x at hx
  rw [hx] at h1q h2q
  have h3 : (2 : ℚ) * K ≤ 2 * x + 1 := by
    by_contra hc
    push_neg at hc
    nlinarith
  have h4 : (2 : ℚ) * x + 1 < 2 * (K + 1) := by
    by_contra hc
    push_neg at hc
    nlinarith
  rw [abs_le]
  constructor <;> linarith

theorem floor_near (N D : Nat) (hD : 0 < D) :
    0 ≤ (N : ℚ) / (D : ℚ) - ((N / D : Nat) : ℚ) ∧ (N : ℚ) / (D : ℚ) - ((N / D : Nat) : ℚ) < 1 := by
  have h1 : D * (N / D) ≤ N := Nat.mul_div_le _ _
  have h2 : N < D * (N / D + 1) := Nat.lt_mul_div_succ _ hD
  generalize N / D = K at h1 h2
  have hDq : (0 : ℚ) < D := by exact_mod_cast hD
  have h1q : (D : ℚ) * K ≤ N := by exact_mod_cast h1
  have h2q : (N : ℚ) < D * (K + 1) := by exact_mod_cast h2
  have hx : (N : ℚ) = (N : ℚ) / D * D := by field_simp
  generalize (N : ℚ) / D = x at hx
  rw [hx] at h1q h2q
  constructor
  · by_contra hc
    push_neg at hc
    nlinarith
  · by_contra hc
    push_neg at hc
    nlinarith

/-- The scaled quotient `(a * 10^(-q)) / (b * 10^q)` is `(a / b) / 10^q`. -/
theorem scaled_ratio (a b : Nat) (q : Int) (hb : 0 < b) :
    ((a * 10 ^ (-q).toNat : Nat) : ℚ) / ((b * 10 ^ q.toNat : Nat) : ℚ)
      = (a : ℚ) / b / (10 : ℚ) ^ q := by
  have hbq : (0 : ℚ) < b := by exact_mod_cast hb
  rw [← ten_zpow_ratio q]
  push_cast
  field_simp

theorem shortestFrom_cases (a b : Nat) (pe : Int) : ∀ (fuel k : Nat),
    readsBack a b (shortestFrom a b pe fuel k).1 (shortestFrom a b pe fuel k).2 = true ∨
    shortestFrom a b pe fuel k
      = (a * 10 ^ (((k + fuel : Nat) : Int) - pe).toNat
          / (b * 10 ^ (pe - ((k + fuel : Nat) : Int)).toNat), pe - ((k + fuel : Nat) : Int)) := by
  intro fuel
  induction fuel with
  | zero => intro k; right; rfl
  | succ f ih =>
    intro k
    rw [shortestFrom]
    split
    · next hboth =>
      simp only [Bool.and_eq_true] at hboth
      left
      split
      · exact hboth.1
      · split
        · exact hboth.2
        · rcases Nat.mod_two_eq_zero_or_one
            (a * 10 ^ (-(pe - (k : Int))).toNat / (b * 10 ^ (pe - (k : Int)).toNat)) with h | h
          · rw [h]; exact hboth.1
          · rw [h]; exact hboth.2
    · split
      · next h => left; exact h
      · split
        · next h => left; exact h
        · have e : k + (f + 1) = (k + 1) + f := by omega
          rw [e]
          exact ih (k + 1)


/-- A decimal that reads back as a value below `2^17` is within `2^-37` of it:
half the spacing of the doubles there. -/
theorem readsBack_near (a b s : Nat) (p : Int) (hb : 0 < b) (hlt : a < 2 ^ 17 * b)
    (h : readsBack a b s p = true) :
    |(s : ℚ) * (10 : ℚ) ^ p - (a : ℚ) / (b : ℚ)| ≤ 1 / 2 ^ 37 := by
  have hbq : (0 : ℚ) < b := by exact_mod_cast hb
  have hP : 0 < 10 ^ (-p).toNat := by positivity
  have hval : ((s * 10 ^ p.toNat : Nat) : ℚ) / ((10 ^ (-p).toNat : Nat) : ℚ)
      = (s : ℚ) * (10 : ℚ) ^ p := by
    rw [← ten_zpow_ratio p]
    push_cast
    ring
  unfold readsBack at h
  rcases roundQuot_cases false (s * 10 ^ p.toNat) (10 ^ (-p).toNat) with hi | ⟨k, t, hf⟩
  · rw [hi] at h
    exact absurd h (by simp)
  · rw [hf] at h
    simp only [decide_eq_true_eq] at h
    have hD := magDen_pos t
    have hDq : (0 : ℚ) < magDen t := by exact_mod_cast hD
    have hkt : (k : ℚ) * (2 : ℚ) ^ t = (a : ℚ) / b := by
      rw [← mag_ratio, div_eq_div_iff hDq.ne' hbq.ne']
      exact_mod_cast h
    by_cases hA : s * 10 ^ p.toNat = 0
    · have h0 : roundQuot false (s * 10 ^ p.toNat) (10 ^ (-p).toNat) = .fin false 0 0 := by
        simp [roundQuot, hA]
      rw [h0] at hf
      simp only [JSNumber.fin.injEq, true_and] at hf
      obtain ⟨hk0, ht0⟩ := hf
      have hs0 : s = 0 := by
        rcases Nat.mul_eq_zero.mp hA with h1 | h1
        · exact h1
        · exact absurd h1 (by positivity)
      rw [← hkt, ← hk0, hs0]
      simp
    · obtain ⟨herr, hnorm⟩ := roundQuot_error false _ _ hA hP k t hf
      rw [hval, hkt] at herr
      rw [abs_sub_comm]
      refine le_trans herr ?_
      have hlt' : (a : ℚ) / b < 2 ^ 17 := by
        rw [div_lt_iff₀ hbq]
        exact_mod_cast hlt
      have ht : t ≤ -36 := by
        rcases hnorm with h1 | h1
        · omega
        · by_contra hc
          have hge : (-35 : Int) ≤ t := by omega
          have h2 : (2 : ℚ) ^ (-35 : Int) ≤ (2 : ℚ) ^ t :=
            zpow_le_zpow_right₀ (by norm_num) hge
          have h3 : ((2 ^ 52 : Nat) : ℚ) ≤ (k : ℚ) := by exact_mod_cast h1
          have h4 : (0 : ℚ) < (2 : ℚ) ^ t := zpow_pos (by norm_num) _
          have h5 : ((2 ^ 52 : Nat) : ℚ) * (2 : ℚ) ^ (-35 : Int) ≤ (k : ℚ) * (2 : ℚ) ^ t :=
            mul_le_mul h3 h2 (by positivity) (by positivity)
          have h6 : ((2 ^ 52 : Nat) : ℚ) * (2 : ℚ) ^ (-35 : Int) = 2 ^ 17 := by norm_num
          rw [h6, hkt] at h5
          linarith
      have h7 : (2 : ℚ) ^ t ≤ (2 : ℚ) ^ (-36 : Int) := zpow_le_zpow_right₀ (by norm_num) ht
      calc (2 : ℚ) ^ t / 2 ≤ (2 : ℚ) ^ (-36 : Int) / 2 :=
            div_le_div_of_nonneg_right h7 (by norm_num)
        _ = 1 / 2 ^ 37 := by norm_num

theorem natDigits_length_le (j : Nat) : ∀ n, n < 10 ^ (j + 1) → (natDigits n).length ≤ j + 1 := by
  induction j with
  | zero =>
    intro n h
    rw [natDigits_lt n (by simpa using h)]
    simp
  | succ j ih =>
    intro n h
    by_cases h10 : n < 10
    · rw [natDigits_lt n h10]; simp
    · rw [natDigits_ge n (by omega)]
      have : n / 10 < 10 ^ (j + 1) := by
        apply Nat.div_lt_of_lt_mul
        rw [Nat.pow_succ] at h
        omega
      have := ih _ this
      simp
      omega

theorem decExponent_le (a b : Nat) (h : a < 100000 * b) : decExponent a b ≤ 5 := by
  unfold decExponent
  split
  · have h1 : a / b < 10 ^ (4 + 1) := by
      apply Nat.div_lt_of_lt_mul
      rw [Nat.mul_comm]
      exact h
    have := natDigits_length_le 4 _ h1
    omega
  · have := natDigits_length_pos ((b - 1) / a)
    omega


/-- The shortest round-trip decimal of a value below 100000 is within `2^-37`
of the value. -/
theorem shortestDecimal_near (m : Nat) (e : Int) (h : magNum m e < 100000 * magDen e) :
    |((shortestDecimal m e).1 : ℚ) * (10 : ℚ) ^ (shortestDecimal m e).2 - (m : ℚ) * (2 : ℚ) ^ e|
      ≤ 1 / 2 ^ 37 := by
  have hD := magDen_pos e
  have hDq : (0 : ℚ) < magDen e := by exact_mod_cast hD
  rw [← mag_ratio]
  unfold shortestDecimal
  generalize hpe : decExponent (magNum m e) (magDen e) = pe
  have hpe5 : pe ≤ 5 := hpe ▸ decExponent_le _ _ h
  rcases shortestFrom_cases (magNum m e) (magDen e) pe 17 1 with hr | hfb
  · exact readsBack_near _ _ _ _ hD (by omega) hr
  · rw [hfb]
    simp only
    generalize hq : pe - ((1 + 17 : Nat) : Int) = q
    have hq13 : q ≤ -13 := by rw [← hq]; push_cast; omega
    have e1 : (((1 + 17 : Nat) : Int) - pe) = -q := by rw [← hq]; ring
    rw [e1]
    have hB : 0 < magDen e * 10 ^ q.toNat := by positivity
    obtain ⟨f1, f2⟩ := floor_near (magNum m e * 10 ^ (-q).toNat) (magDen e * 10 ^ q.toNat) hB
    rw [scaled_ratio _ _ q hD] at f1 f2
    generalize ((magNum m e * 10 ^ (-q).toNat / (magDen e * 10 ^ q.toNat) : Nat) : ℚ) = S at f1 f2 ⊢
    generalize (magNum m e : ℚ) / (magDen e : ℚ) = x at f1 f2 ⊢
    have hpos : (0 : ℚ) < (10 : ℚ) ^ q := zpow_pos (by norm_num) _
    have hq2 : (10 : ℚ) ^ q ≤ (10 : ℚ) ^ (-13 : Int) := zpow_le_zpow_right₀ (by norm_num) hq13
    have hq3 : (10 : ℚ) ^ (-13 : Int) ≤ 1 / 2 ^ 37 := by norm_num
    have f1' : S * (10 : ℚ) ^ q ≤ x := by
      have : S ≤ x / (10 : ℚ) ^ q := by linarith
      rwa [le_div_iff₀ hpos] at this
    have f2' : x < (S + 1) * (10 : ℚ) ^ q := by
      have : x / (10 : ℚ) ^ q < S + 1 := by linarith
      rwa [div_lt_iff₀ hpos] at this
    have hT : (10 : ℚ) ^ q ≤ 1 / 2 ^ 37 := le_trans hq2 hq3
    generalize (10 : ℚ) ^ q = T at hpos hT f1' f2' ⊢
    have f3 : x < S * T + T := by
      have e2 : (S + 1) * T = S * T + T := by ring
      rw [e2] at f2'
      exact f2'
    have hpos37 : (0 : ℚ) < 1 / 2 ^ 37 := by norm_num
    rw [abs_le]
    constructor <;> linarith

/-- The thousandths shown for a value below 100000: within half a thousandth
and `2^-37` of the value, and exactly the thousandths of an integer. -/
theorem thousandths_near (m : Nat) (e : Int) (h : magNum m e < 100000 * magDen e) :
    |(thousandths m e : ℚ) / 1000 - (m : ℚ) * (2 : ℚ) ^ e| ≤ 1 / 2000 + 1 / 2 ^ 37 ∧
    ∀ j : Nat, (m : ℚ) * (2 : ℚ) ^ e = j → thousandths m e = 1000 * j := by
  have hD := magDen_pos e
  have hDq : (0 : ℚ) < magDen e := by exact_mod_cast hD
  have hsmall : magNum m e / magDen e < 2 ^ 53 := by
    have : magNum m e / magDen e < 100000 := by
      apply Nat.div_lt_of_lt_mul
      rw [Nat.mul_comm]
      exact h
    omega
  by_cases hint : magNum m e % magDen e = 0
  · have hk : thousandths m e = 1000 * (magNum m e / magDen e) := by
      unfold thousandths
      rw [if_pos ⟨hint, hsmall⟩]
    have hexact : ((magNum m e / magDen e : Nat) : ℚ) = (m : ℚ) * (2 : ℚ) ^ e := by
      rw [← mag_ratio, Nat.cast_div (Nat.dvd_of_mod_eq_zero hint) hDq.ne']
    refine ⟨?_, fun j hj => ?_⟩
    · rw [hk]
      push_cast
      rw [hexact]
      have e0 : 1000 * ((m : ℚ) * (2 : ℚ) ^ e) / 1000 - (m : ℚ) * (2 : ℚ) ^ e = 0 := by ring
      rw [e0]
      norm_num
    · rw [hk]
      congr 1
      rw [← hexact] at hj
      exact_mod_cast hj
  · have hk : thousandths m e
        = (2 * ((shortestDecimal m e).1 * 10 ^ ((shortestDecimal m e).2 + 3).toNat)
            + 10 ^ (-((shortestDecimal m e).2 + 3)).toNat)
          / (2 * 10 ^ (-((shortestDecimal m e).2 + 3)).toNat) := by
      unfold thousandths
      rw [if_neg (fun hc => hint hc.1)]
      simp only [Nat.mul_assoc]
    refine ⟨?_, fun j hj => ?_⟩
    · have hnear := shortestDecimal_near m e h
      rw [hk]
      generalize (shortestDecimal m e).1 = s at hnear ⊢
      generalize (shortestDecimal m e).2 = p at hnear ⊢
      have hP : 0 < 10 ^ (-(p + 3)).toNat := by positivity
      have hup := half_up_near (s * 10 ^ (p + 3).toNat) (10 ^ (-(p + 3)).toNat) hP
      have hval : ((s * 10 ^ (p + 3).toNat : Nat) : ℚ) / ((10 ^ (-(p + 3)).toNat : Nat) : ℚ)
          = 1000 * ((s : ℚ) * (10 : ℚ) ^ p) := by
        rw [Nat.cast_mul, mul_div_assoc, ten_zpow_ratio (p + 3),
          zpow_add₀ (by norm_num : (10 : ℚ) ≠ 0)]
        norm_num
        ring
      rw [hval] at hup
      generalize (((2 * (s * 10 ^ (p + 3).toNat) + 10 ^ (-(p + 3)).toNat)
        / (2 * 10 ^ (-(p + 3)).toNat) : Nat) : ℚ) = K at hup ⊢
      rw [abs_le] at hup hnear ⊢
      constructor <;> linarith [hup.1, hup.2, hnear.1, hnear.2]
    · exfalso
      apply hint
      have hj2 : (magNum m e : ℚ) = j * magDen e := by
        rw [← mag_ratio, div_eq_iff hDq.ne'] at hj
        exact hj
      have hj3 : magNum m e = j * magDen e := by exact_mod_cast hj2
      rw [hj3]
      exact Nat.mul_mod_left _ _

/-- C3: for every number `n` with `0 ≤ n < 100000`, `formatCurrency(n)` is `₹`
followed by `formatNumber(n)`, and that is the `en-IN` rendering of `n`: the
sign `-` for the negative zero only, then the decimal numeral of `k` thousandths,
the integer digits of `k / 1000` with Indian grouping and the fraction digits of
`k % 1000` without trailing zeros, where `k / 1000` is `n` rounded to three
decimals: it differs from `n` by at most half a thousandth and `2^-37` (half
the spacing of the doubles below 100000), and `k` is `1000 * n` when `n` is an
integer. The string ends in a digit, so in neither ` L` nor ` Cr`.
`formatCurrency(9999)` is `₹9,999`; the doubles nearest to 1923.456, 1234.5678,
0.5, 0.0025 and 99999.9996 give `₹1,923.456`, `₹1,234.568`, `₹0.5`, `₹0.003` and
`₹1,00,000`. -/
theorem formatCurrency_below_lakh (n : JSNumber) (h0 : n.geNat 0 = true)
    (h1 : n.geNat 100000 = false) :
    formatCurrency n = utf16 "₹" ++ formatNumber n ∧
    (∃ k : Nat,
      formatNumber n = (if n.signBit then utf16 "-" else [])
        ++ indianGrouping (natDigits (k / 1000)) ++ fractionText (k % 1000) ∧
      |(k : ℚ) / 1000 - n.toRat| ≤ 1 / 2000 + 1 / 2 ^ 37 ∧
      (∀ j : Nat, n.toRat = (j : ℚ) → k = 1000 * j ∧
        formatNumber n = (if n.signBit then utf16 "-" else [])
          ++ indianGrouping (natDigits j))) ∧
    (n.signBit = true → n.toRat = 0) ∧
    (∃ d, (formatCurrency n).getLast? = some (digitUnit d)) ∧
    ¬ utf16 " L" <:+ formatCurrency n ∧
    ¬ utf16 " Cr" <:+ formatCurrency n ∧
    formatCurrency (.ofNat 9999) = utf16 "₹9,999" ∧
    formatCurrency (roundQuot false 1923456 1000) = utf16 "₹1,923.456" ∧
    formatCurrency (roundQuot false 12345678 10000) = utf16 "₹1,234.568" ∧
    formatCurrency (roundQuot false 5 10) = utf16 "₹0.5" ∧
    formatCurrency (roundQuot false 25 10000) = utf16 "₹0.003" ∧
    formatCurrency (roundQuot false 999999996 10000) = utf16 "₹1,00,000" := by
  have h2 : n.geNat 10000000 = false := geNat_mono n 100000 10000000 (by decide) h1
  have hf : formatCurrency n = utf16 "₹" ++ formatNumber n := by
    unfold formatCurrency formatNumber
    simp [h1, h2]
  cases n with
  | nan => simp [JSNumber.geNat] at h0
  | inf neg => cases neg <;> simp [JSNumber.geNat] at h0 h1
  | fin neg m e =>
    obtain ⟨d, hd⟩ := toLocaleString_fin_getLast? neg m e
    have hne : toLocaleStringEnIN (.fin neg m e) ≠ [] := by
      intro h; rw [h] at hd; simp at hd
    have hlast : (formatCurrency (.fin neg m e)).getLast? = some (digitUnit d) := by
      rw [hf, formatNumber, List.getLast?_append_of_ne_nil _ hne]
      exact hd
    have hval := digitUnit_val d
    have hlt : d % 10 < 10 := Nat.mod_lt _ (by decide)
    have hmag : magNum m e < 100000 * magDen e ∧
        (JSNumber.fin neg m e).toRat = (m : ℚ) * (2 : ℚ) ^ e ∧ (neg = true → m = 0) := by
      cases neg with
      | false =>
        refine ⟨by simpa [JSNumber.geNat] using h1, by simp [JSNumber.toRat], by simp⟩
      | true =>
        have hm : m = 0 := by simpa [JSNumber.geNat] using h0
        subst hm
        refine ⟨?_, by simp [JSNumber.toRat], fun _ => rfl⟩
        have := magDen_pos e
        simp [magNum]
        exact this
    obtain ⟨hlt5, hrat, hneg⟩ := hmag
    obtain ⟨hnear, hint⟩ := thousandths_near m e hlt5
    have hform : formatNumber (.fin neg m e) = (if neg then utf16 "-" else [])
        ++ indianGrouping (natDigits (thousandths m e / 1000))
        ++ fractionText (thousandths m e % 1000) := by
      unfold formatNumber
      rw [toLocaleStringEnIN_fin, groupIndian_eq, fractionDigits_eq_text]
    refine ⟨hf, ⟨thousandths m e, hform, ?_, fun j hj => ?_⟩, ?_, ⟨d, hlast⟩, ?_, ?_,
      by decide, by decide, by decide, by decide, by decide, by decide⟩
    · rw [hrat]; exact hnear
    · rw [hrat] at hj
      have hk := hint j hj
      refine ⟨hk, ?_⟩
      rw [hform, hk]
      have e1 : 1000 * j / 1000 = j := by omega
      have e2 : 1000 * j % 1000 = 0 := by omega
      rw [e1, e2]
      simp [fractionText, JSNumber.signBit]
    · intro hs
      have hm : m = 0 := hneg hs
      rw [hrat, hm]
      simp
    · refine @not_suffix_of_getLast? _ _ _ 76 hlast (by decide) ?_
      intro h
      have hv : (digitUnit d).val = 76 := by rw [h]; rfl
      omega
    · refine @not_suffix_of_getLast? _ _ _ 114 hlast (by decide) ?_
      intro h
      have hv : (digitUnit d).val = 114 := by rw [h]; rfl
      omega

theorem formatCurrency_below_lakh_witness :
    (roundQuot false 1923456 1000).geNat 0 = true ∧
    (roundQuot false 1923456 1000).geNat 100000 = false ∧
    formatCurrency (roundQuot false 1923456 1000)
      = utf16 "₹" ++ formatNumber (roundQuot false 1923456 1000) :=
  ⟨by decide, by decide,
    (formatCurrency_below_lakh (roundQuot false 1923456 1000) (by decide) (by decide)).1⟩

end RetailMart
